import Mathlib

/-!
Shallow embedding of the `ConditionedSimulation` repository: the two
conditioned multi-task sequence models of `src/generator/models.py`
(`MTCondLSTM`, `SpecializedBlock`, `MTCondDG`) and the configuration
checks of `src/train.py`.

Modelling conventions:
* tensors are nested lists of exact rationals (`ℚ`); floating point is
  abstracted to exact arithmetic;
* stateful Python methods become functions that return the updated
  object next to their result, so "mutation" is visible as a changed
  returned object;
* the autograd graph is abstracted to a boolean tag on the recurrent
  state tensors; `Tensor.detach()` clears the tag;
* `torch.nn` layer constructors draw their randomly initialised weights
  from explicit initialiser parameters (`InitParams`);
* `torch.nn.LSTM` is an external collaborator: its evaluation is a
  function field, constrained in theorems only by its documented shape
  contract;
* fallible operations (embedding lookup with an out-of-range code,
  iterating an empty vocabulary, indexing a missing column) return
  `Option`, with `none` for the runtime error raised by the source.
-/

/-- A vector: one row of a tensor. -/
abbrev Vec := List ℚ

/-- A matrix: a 2-d tensor as a list of rows. -/
abbrev Mat := List Vec

/-- A 3-d tensor, e.g. `(batch, prefix_len, features)`. -/
abbrev T3 := List Mat

/-- Dot product, the core of a linear layer. -/
def dot (a b : Vec) : ℚ := (List.zipWith (· * ·) a b).sum

/-- Matrix-vector product: one output entry per weight row. -/
def matVec (w : Mat) (x : Vec) : Vec := w.map (fun row => dot row x)

/-- `torch.nn.Linear`: weights of shape `(out_features, in_features)` plus a bias. -/
structure LinearLayer where
  weight : Mat
  bias : Vec
deriving DecidableEq

/-- `nn.Linear` applied to a single feature vector. -/
def LinearLayer.run (l : LinearLayer) (x : Vec) : Vec :=
  List.zipWith (· + ·) (matVec l.weight x) l.bias

/-- `nn.Linear` applied row-wise to a batch. -/
def LinearLayer.runBatch (l : LinearLayer) (xs : Mat) : Mat := xs.map l.run

/-- `torch.nn.ReLU`. -/
def relu (x : ℚ) : ℚ := max x 0

/-- Mean of a list of rationals (used by batch normalization). -/
def listMean (v : Vec) : ℚ := v.sum / v.length

/-- Biased variance (denominator `n`), used by `BatchNorm1d` to normalize. -/
def listVarBiased (v : Vec) : ℚ := (v.map (fun x => (x - listMean v) ^ 2)).sum / v.length

/-- Unbiased variance (denominator `n - 1`), used by `BatchNorm1d` for the
running-variance update. -/
def listVarUnbiased (v : Vec) : ℚ :=
  (v.map (fun x => (x - listMean v) ^ 2)).sum / ((v.length : ℚ) - 1)

/-- Column `j` of a batch of rows. -/
def column (xs : Mat) (j : Nat) : Vec := xs.map (fun r => r.getD j 0)

/-- `torch.nn.BatchNorm1d`: learnable affine parameters plus the running
statistics buffers that training-mode forward passes update in place. -/
structure BatchNorm1d where
  num_features : Nat
  gamma : Vec
  beta : Vec
  running_mean : Vec
  running_var : Vec
  momentum : ℚ
  eps : ℚ
  training : Bool
deriving DecidableEq

/-- A freshly constructed `nn.BatchNorm1d(n)`: weight 1, bias 0,
running mean 0, running variance 1, momentum 0.1, eps 1e-5, training mode. -/
def BatchNorm1d.init (n : Nat) : BatchNorm1d :=
  ⟨n, List.replicate n 1, List.replicate n 0, List.replicate n 0, List.replicate n 1,
    1 / 10, 1 / 100000, true⟩

/-- Training-mode body of `nn.BatchNorm1d`: normalize with the batch
statistics and update the running buffers in place (momentum 0.1 update
with the unbiased variance, biased variance for normalization). The
reciprocal square root of the (floating point) source is abstracted to an
explicit function `rsqrt`. -/
def BatchNorm1d.trainStep (rsqrt : ℚ → ℚ) (bn : BatchNorm1d) (xs : Mat) :
    Mat × BatchNorm1d :=
  let mus := (List.range bn.num_features).map (fun j => listMean (column xs j))
  let vars := (List.range bn.num_features).map (fun j => listVarBiased (column xs j))
  let varsU := (List.range bn.num_features).map (fun j => listVarUnbiased (column xs j))
  let out := xs.map (fun r => (List.range bn.num_features).map (fun j =>
    bn.gamma.getD j 1 * ((r.getD j 0 - mus.getD j 0) * rsqrt (vars.getD j 0 + bn.eps)) +
      bn.beta.getD j 0))
  let rm := (List.range bn.num_features).map (fun j =>
    (1 - bn.momentum) * bn.running_mean.getD j 0 + bn.momentum * mus.getD j 0)
  let rv := (List.range bn.num_features).map (fun j =>
    (1 - bn.momentum) * bn.running_var.getD j 0 + bn.momentum * varsU.getD j 0)
  (out, { bn with running_mean := rm, running_var := rv })

/-- Eval-mode body of `nn.BatchNorm1d`: normalize with the stored running
statistics; the layer is untouched. -/
def BatchNorm1d.evalStep (rsqrt : ℚ → ℚ) (bn : BatchNorm1d) (xs : Mat) :
    Mat × BatchNorm1d :=
  (xs.map (fun r => (List.range bn.num_features).map (fun j =>
    bn.gamma.getD j 1 *
      ((r.getD j 0 - bn.running_mean.getD j 0) * rsqrt (bn.running_var.getD j 0 + bn.eps)) +
      bn.beta.getD j 0)), bn)

/-- `nn.BatchNorm1d` forward. In training mode it first runs torch's
batch-size check - a batch of size 1 raises "Expected more than 1 value
per channel when training", modelled as `none` - and otherwise applies the
training-mode body; in eval mode it always succeeds with the eval body. -/
def BatchNorm1d.forward (rsqrt : ℚ → ℚ) (bn : BatchNorm1d) (xs : Mat) :
    Option (Mat × BatchNorm1d) :=
  if bn.training then
    if xs.length = 1 then none else some (bn.trainStep rsqrt xs)
  else some (bn.evalStep rsqrt xs)

/-- A tensor together with its autograd tag: `grad = true` means the tensor
still carries gradient history. -/
structure TaggedT3 where
  val : T3
  grad : Bool
deriving DecidableEq

/-- `Tensor.detach()`: same values, no gradient history. -/
def TaggedT3.detach (t : TaggedT3) : TaggedT3 := { t with grad := false }

/-- The recurrent `(hidden, cell)` state pair of an LSTM. -/
structure LSTMState where
  h : TaggedT3
  c : TaggedT3
deriving DecidableEq

/-- `states = [s.detach() for s in states]` from both forward passes. -/
def detachState (s : LSTMState) : LSTMState := ⟨s.h.detach, s.c.detach⟩

/-- `torch.nn.LSTM(input_size, hidden_size, num_layers, batch_first=True)`.
The network itself is an external collaborator, so its evaluation is an
abstract function field; theorems constrain it only through its documented
shape contract. -/
structure LSTMModule where
  input_size : Int
  hidden_size : Nat
  num_layers : Nat
  run : T3 → Option LSTMState → T3 × LSTMState

/-- Documented shape contract of a batch-first `nn.LSTM`: an input of shape
`(B, L, inS)` produces an output of shape `(B, L, hid)`. -/
def LSTMRunShapeOK (l : LSTMModule) (inS hid : Nat) : Prop :=
  ∀ (inp : T3) (st : Option LSTMState) (B L : Nat),
    inp.length = B → (∀ s ∈ inp, s.length = L ∧ ∀ r ∈ s, r.length = inS) →
    (l.run inp st).1.length = B ∧
      ∀ s ∈ (l.run inp st).1, s.length = L ∧ ∀ r ∈ s, r.length = hid

/-- `torch.nn.Embedding(num_embeddings, embedding_dim)` with its weight table. -/
structure EmbeddingLayer where
  num_embeddings : Nat
  embedding_dim : Nat
  weight : Mat
deriving DecidableEq

/-- One per-feature vocabulary entry, `vocabs[feature]`: a dict carrying
`size`, `emb_dim` and - after `_set_embeddings` has run - the
`embedding_layer` key that the constructor writes back into it. -/
structure VocabEntry where
  size : Nat
  emb_dim : Nat
  embedding_layer : Option EmbeddingLayer
deriving DecidableEq

/-- The `vocabs` argument: an insertion-ordered dict from feature name to
vocabulary entry. -/
abbrev Vocabs := List (String × VocabEntry)

/-- Python dict access `d[k]` on an insertion-ordered association list
(keys of a real dict are unique, so first match is the match). -/
def dictLookup (k : String) : List (String × α) → Option α
  | [] => none
  | p :: ps => if p.1 = k then some p.2 else dictLookup k ps

/-- `MTCondLSTM._set_embeddings` / `MTCondDG._set_embeddings` (identical
bodies): for each feature, build an `nn.Embedding` and write it back into
the caller's vocab entry under the `embedding_layer` key, then collect the
layers into an `nn.ModuleDict`. Returns the module dict together with the
mutated vocabs; the weight initialisation is the explicit `embInit`. -/
def set_embeddings (embInit : Nat → Nat → Mat) (vocabs : Vocabs) :
    List (String × EmbeddingLayer) × Vocabs :=
  let updated : Vocabs := vocabs.map (fun p =>
    let emb : EmbeddingLayer := ⟨p.2.size, p.2.emb_dim, embInit p.2.size p.2.emb_dim⟩
    (p.1, { p.2 with embedding_layer := some emb }))
  let dict := updated.map (fun p => (p.1, p.2.embedding_layer.getD ⟨0, 0, []⟩))
  (dict, updated)

/-- `MTCondLSTM._set_input_dim` / `MTCondDG._set_input_dim` (identical
bodies): start from `3 - len(vocabs)` and add every feature's `emb_dim`. -/
def set_input_dim (vocabs : Vocabs) : Int :=
  vocabs.foldl (fun acc p => acc + (p.2.emb_dim : Int)) (3 - (vocabs.length : Int))

/-- `Tensor.long()` on a single stored value: truncation toward zero. -/
def ratToLong (q : ℚ) : Int := q.num.tdiv q.den

/-- `nn.Embedding` lookup on one integer code: the code must lie in
`[0, num_embeddings)`, otherwise torch raises an index-range error
(modelled as `none`); in range, it returns exactly row `c` of the table. -/
def embLookup (weight : Mat) (c : Int) : Option Vec :=
  if 0 ≤ c then weight[c.toNat]? else none

/-- The categorical half of `_embed`: the `for ix, feature in
enumerate(self.vocabs)` loop. Feature `ix` selects column `ix` of every
event (`e[:, :, ix].long()`, failing if the column does not exist), looks
its code up in the module dict, and concatenates the embedding vectors in
declared order. -/
def mEmbedRowAux (features : List String) (dict : List (String × EmbeddingLayer))
    (ix : Nat) (ev : Vec) : Option Vec :=
  match features with
  | [] => some []
  | f :: fs => do
    let v ← ev[ix]?
    let layer ← dictLookup f dict
    let vecf ← embLookup layer.weight (ratToLong v)
    let rest ← mEmbedRowAux fs dict (ix + 1) ev
    pure (vecf ++ rest)

/-- `_embed` on a single event row: embeddings of the categorical columns in
declared order, then `e[:, :, ix + 1:]` - the remaining numeric columns
verbatim (`ix` is the last loop index, so this drops the first
`len(vocabs)` columns). With an empty vocabulary the loop body never runs,
`ix` is never bound and `embs` stays `None`, so the method fails. -/
def mEmbedRow (features : List String) (dict : List (String × EmbeddingLayer))
    (ev : Vec) : Option Vec :=
  match features with
  | [] => none
  | _ :: _ => do
    let cat ← mEmbedRowAux features dict 0 ev
    pure (cat ++ ev.drop features.length)

/-- Effectful map over a list, short-circuiting on the first failure (the
tensor-wide application of a fallible row operation). -/
def mapMo {α β : Type} (g : α → Option β) : List α → Option (List β)
  | [] => some []
  | x :: xs => do
    let y ← g x
    let ys ← mapMo g xs
    pure (y :: ys)

/-- `MTCondLSTM._embed` / `MTCondDG._embed` (identical bodies) on a batch of
shape `(B, prefix_len, F)`: row-wise embedding, failing everywhere if any
single lookup fails. -/
def mEmbed (features : List String) (dict : List (String × EmbeddingLayer))
    (e : T3) : Option T3 :=
  match features with
  | [] => none
  | _ :: _ => mapMo (fun seq => mapMo (mEmbedRow features dict) seq) e

/-- Sum of the declared embedding dimensions of a vocabulary. -/
def totalEmb (v : Vocabs) : Nat := (v.map (fun p => p.2.emb_dim)).sum

/-- Width of an embedded event row for a three-column event tensor:
`Σ emb_dim + (3 - #categorical features)`. -/
def embedOutWidth (v : Vocabs) : Nat := totalEmb v + (3 - v.length)

/-- Specification-side description of the categorical half of the embedder
(§4.2 of the spec): for each categorical feature in declared order, look up
its freshly initialised embedding table on the integer code found in that
feature's column, and concatenate the resulting vectors. Used to state
that `_embed` refines the spec's wording. -/
def specCatSeq (embInit : Nat → Nat → Mat) (v : Vocabs) (ix : Nat) (ev : Vec) : Vec :=
  match v with
  | [] => []
  | q :: qs =>
    (embInit q.2.size q.2.emb_dim).getD (ratToLong (ev.getD ix 0)).toNat [] ++
      specCatSeq embInit qs (ix + 1) ev

/-- Decidable in-range check for the categorical codes of one event row:
feature `i`'s code (column `i`) is an integer in `[0, size_i)`. -/
def rowCodesOK (v : Vocabs) (ev : Vec) : Bool :=
  (List.range v.length).all (fun i =>
    decide (0 ≤ ratToLong (ev.getD i 0)) &&
      decide ((ratToLong (ev.getD i 0)).toNat <
        (v.map (fun p => p.2.size)).getD i 0))

/-- Decidable in-range check for a whole `(B, L, F)` event tensor. -/
def codesOK (v : Vocabs) (e : T3) : Bool := e.all (fun s => s.all (rowCodesOK v))

/-- Shape contract for an embedding-weight initialiser: `embInit s d` is an
`s × d` table (what `nn.Embedding(s, d)` guarantees). -/
def EmbInitWF (f : Nat → Nat → Mat) : Prop :=
  ∀ s d, (f s d).length = s ∧ ∀ r ∈ f s d, r.length = d

/-- Shape contract for a linear-layer initialiser: `linInit i o` has an
`o × i` weight and an `o`-wide bias (what `nn.Linear(i, o)` guarantees). -/
def LinInitWF (f : Nat → Nat → LinearLayer) : Prop :=
  ∀ i o, (f i o).weight.length = o ∧ (∀ r ∈ (f i o).weight, r.length = i) ∧
    (f i o).bias.length = o

/-- The collaborating `torch.nn` constructors' random weight draws, passed
explicitly so that model construction is a function. -/
structure InitParams where
  embInit : Nat → Nat → Mat
  linInit : Nat → Nat → LinearLayer
  lstmInit : Int → Nat → Nat → LSTMModule

/-- The `self.mlp = nn.Sequential(Linear, BatchNorm1d, ReLU, Linear,
BatchNorm1d, ReLU)` block of `MTCondLSTM`. -/
structure MLPBlock where
  lin1 : LinearLayer
  bn1 : BatchNorm1d
  lin2 : LinearLayer
  bn2 : BatchNorm1d

/-- Forward pass of the `nn.Sequential` MLP block; returns the output and
the block with its batch-norm running statistics possibly updated, or
`none` when a batch-norm layer raises. -/
def MLPBlock.forward (rsqrt : ℚ → ℚ) (b : MLPBlock) (xs : Mat) :
    Option (Mat × MLPBlock) :=
  match b.bn1.forward rsqrt (b.lin1.runBatch xs) with
  | none => none
  | some p1 =>
    let r1 := p1.1.map (fun r => r.map relu)
    match b.bn2.forward rsqrt (b.lin2.runBatch r1) with
    | none => none
    | some p2 =>
      some (p2.1.map (fun r => r.map relu), ⟨b.lin1, p1.2, b.lin2, p2.2⟩)

/-- The shared-trunk variant `MTCondLSTM` after `__init__`. -/
structure MTCondLSTM where
  vocabs : Vocabs
  batch_size : Nat
  hidden_size : Nat
  num_layers : Nat
  prefix_len : Nat
  embeddings : List (String × EmbeddingLayer)
  input_dim : Int
  lstm : LSTMModule
  mlp : MLPBlock
  act_out : LinearLayer
  rt_out : LinearLayer
  res_out : LinearLayer

/-- `MTCondLSTM.__init__(vocabs, batch_size)`. Mutates the caller's vocabs
through `_set_embeddings` (returned as the second component regardless of
success), fails (`none`) when the `"activity"` key is missing, sizes the
resource head from whether a `"resource"` entry exists. -/
def MTCondLSTM.make (p : InitParams) (vocabs : Vocabs) (batch_size : Nat) :
    Option MTCondLSTM × Vocabs :=
  let se := set_embeddings p.embInit vocabs
  let updated := se.2
  let dim := set_input_dim updated
  match dictLookup "activity" updated with
  | none => (none, updated)
  | some actEntry =>
    let res_w := match dictLookup "resource" updated with
      | some r => r.size
      | none => 1
    (some {
      vocabs := updated
      batch_size := batch_size
      hidden_size := 256
      num_layers := 2
      prefix_len := 5
      embeddings := se.1
      input_dim := dim
      lstm := p.lstmInit dim 256 2
      mlp := ⟨p.linInit (1 + 256 * 5) 512, BatchNorm1d.init 512,
              p.linInit 512 256, BatchNorm1d.init 256⟩
      act_out := p.linInit 256 actEntry.size
      rt_out := p.linInit 256 1
      res_out := p.linInit 256 res_w }, updated)

/-- `MTCondLSTM.forward(x, states)` with `x = (events, condition)`: embed,
run the trunk LSTM, flatten, concatenate the per-example scalar condition,
run the MLP, read the three heads, detach the returned state. Returns
`none` when `_embed` fails or a batch-norm layer raises, otherwise the
`(next_act, next_res, next_rt, states)` tuple together with the model
carrying the updated batch-norm buffers. -/
def MTCondLSTM.forward (rsqrt : ℚ → ℚ) (m : MTCondLSTM) (events : T3) (condition : Vec)
    (states : Option LSTMState) :
    Option ((Mat × Mat × Mat × LSTMState) × MTCondLSTM) :=
  match mEmbed (m.vocabs.map Prod.fst) m.embeddings events with
  | none => none
  | some emb =>
    let enc := m.lstm.run emb states
    let encoded := enc.1.map List.flatten
    let conditioned := List.zipWith (fun r c => r ++ [c]) encoded condition
    match m.mlp.forward rsqrt conditioned with
    | none => none
    | some mo =>
      let next_res := m.res_out.runBatch mo.1
      let next_act := m.act_out.runBatch mo.1
      let next_rt := m.rt_out.runBatch mo.1
      some ((next_act, next_res, next_rt, detachState enc.2), { m with mlp := mo.2 })

/-- `module.eval()` on a batch-norm layer: clear the training flag. -/
def BatchNorm1d.evalMode (bn : BatchNorm1d) : BatchNorm1d := { bn with training := false }

/-- `model.eval()` on the shared variant: recursively puts the batch-norm
layers of the MLP block into eval mode (the only submodules whose
behaviour depends on the flag). -/
def MTCondLSTM.evalMode (m : MTCondLSTM) : MTCondLSTM :=
  { m with mlp := ⟨m.mlp.lin1, m.mlp.bn1.evalMode, m.mlp.lin2, m.mlp.bn2.evalMode⟩ }

/-- `SpecializedBlock`: one single-layer LSTM plus one linear head. -/
structure SpecializedBlock where
  input_dim : Nat
  hidden_size : Nat
  num_layers : Nat
  prefix_len : Nat
  lstm : LSTMModule
  linear : LinearLayer

/-- `SpecializedBlock.__init__(input_dim, out_dim)`. -/
def SpecializedBlock.make (p : InitParams) (input_dim : Nat) (out_dim : Nat) :
    SpecializedBlock :=
  ⟨input_dim, 256, 1, 5, p.lstmInit input_dim 256 1, p.linInit (1 + 256 * 5) out_dim⟩

/-- `SpecializedBlock.forward(encoded_x, states, condition)`: runs its own
LSTM from the given initial state, flattens, concatenates the condition,
applies the linear head and returns the block's own detached state. -/
def SpecializedBlock.forward (b : SpecializedBlock) (encoded_x : T3) (states : LSTMState)
    (condition : Vec) : Mat × LSTMState :=
  let enc := b.lstm.run encoded_x (some states)
  let flat := enc.1.map List.flatten
  let conditioned := List.zipWith (fun r c => r ++ [c]) flat condition
  (b.linear.runBatch conditioned, detachState enc.2)

/-- The fully-specialized variant `MTCondDG` after `__init__`. -/
structure MTCondDG where
  vocabs : Vocabs
  batch_size : Nat
  hidden_size : Nat
  num_layers : Nat
  prefix_len : Nat
  embeddings : List (String × EmbeddingLayer)
  input_dim : Int
  lstm : LSTMModule
  activity_block : SpecializedBlock
  res_block : SpecializedBlock
  time_block : SpecializedBlock

/-- `MTCondDG.__init__(vocabs, batch_size)`: trunk LSTM plus three
specialized blocks whose input is the trunk's hidden size; the resource
block's output width follows the same `"resource" in vocabs` rule. -/
def MTCondDG.make (p : InitParams) (vocabs : Vocabs) (batch_size : Nat) :
    Option MTCondDG × Vocabs :=
  let se := set_embeddings p.embInit vocabs
  let updated := se.2
  let dim := set_input_dim updated
  match dictLookup "activity" updated with
  | none => (none, updated)
  | some actEntry =>
    let res_w := match dictLookup "resource" updated with
      | some r => r.size
      | none => 1
    (some {
      vocabs := updated
      batch_size := batch_size
      hidden_size := 256
      num_layers := 1
      prefix_len := 5
      embeddings := se.1
      input_dim := dim
      lstm := p.lstmInit dim 256 1
      activity_block := SpecializedBlock.make p 256 actEntry.size
      res_block := SpecializedBlock.make p 256 res_w
      time_block := SpecializedBlock.make p 256 1 }, updated)

/-- `MTCondDG.forward(x, states)`: embed, run the trunk LSTM, detach its
state, hand that detached state to each of the three specialized blocks,
discard the blocks' own states and return the trunk's detached state. -/
def MTCondDG.forward (m : MTCondDG) (events : T3) (condition : Vec)
    (states : Option LSTMState) : Option (Mat × Mat × Mat × LSTMState) :=
  match mEmbed (m.vocabs.map Prod.fst) m.embeddings events with
  | none => none
  | some emb =>
    let enc := m.lstm.run emb states
    let st := detachState enc.2
    let a := m.activity_block.forward enc.1 st condition
    let r := m.res_block.forward enc.1 st condition
    let t := m.time_block.forward enc.1 st condition
    some (a.1, r.1, t.1, st)

/-- Configuration surface of `src/train.py` relevant to the eager checks. -/
structure TrainConfig where
  dataset : String
  hidden_size : Int
  input_size : Int

/-- External collaborators of `src/train.py`: the `LOG_READERS` registry
(which datasets have a reader) and the `experiment_exists` lookup. -/
structure TrainEnv where
  logReaders : List String
  experimentExists : TrainConfig → Bool

/-- Observable outcome of a `train.py` invocation. -/
inductive RunOutcome where
  | exitedBpi19
  | skippedExisting
  | configErrorHiddenSize
  | errorDatasetNotFound
  | trained
deriving DecidableEq

/-- `run(config)` up to its first collaborator call: `LOG_READERS.get`
returning `None` raises `ValueError` before any data loading, model
construction or training; otherwise the run proceeds into training. -/
def runTraining (env : TrainEnv) (cfg : TrainConfig) : RunOutcome :=
  if env.logReaders.contains cfg.dataset then RunOutcome.trained
  else RunOutcome.errorDatasetNotFound

/-- The `__main__` block of `src/train.py`: `bpi19` exits immediately, an
existing experiment is skipped, a hidden size smaller than the input size
exits with code 1 before `run(config)` is ever called. -/
def trainMain (env : TrainEnv) (cfg : TrainConfig) : RunOutcome :=
  if cfg.dataset = "bpi19" then RunOutcome.exitedBpi19
  else if env.experimentExists cfg then RunOutcome.skippedExisting
  else if cfg.hidden_size < cfg.input_size then RunOutcome.configErrorHiddenSize
  else runTraining env cfg

example : set_input_dim [("activity", ⟨4, 2, none⟩)] = 4 := by decide
example : set_input_dim [("activity", ⟨9, 3, none⟩), ("resource", ⟨4, 2, none⟩)] = 6 := by
  decide
example : ratToLong 5 = 5 := by decide
example : embLookup [[1], [2], [3]] 2 = some [3] := by decide
example : embLookup [[1], [2], [3]] 3 = none := by decide
example : embLookup [[1], [2], [3]] (-1) = none := by decide
example :
    mEmbedRow ["activity"] [("activity", ⟨2, 2, [[5, 6], [7, 8]]⟩)] [1, 9, 10] =
      some [7, 8, 9, 10] := by decide
example : mEmbedRow [] [] [1, 2, 3] = none := by decide

/-- Both grad tags of a returned recurrent state pair are cleared. -/
def stateDetached (s : LSTMState) : Bool := !s.h.grad && !s.c.grad

/-- Output width of the shared variant's resource head. -/
def lstmResWidth (o : Option MTCondLSTM) : Option Nat :=
  o.map (fun m => m.res_out.weight.length)

/-- Output width of the specialized variant's resource head. -/
def dgResWidth (o : Option MTCondDG) : Option Nat :=
  o.map (fun m => m.res_block.linear.weight.length)

/-- A deterministic stand-in for `nn.Linear`'s random initialisation:
all-zero weights, all-zero bias, correct shapes. -/
def zeroLin (i o : Nat) : LinearLayer :=
  ⟨List.replicate o (List.replicate i 0), List.replicate o 0⟩

/-- `nn.Linear` initialisation with all-zero weights and all-one bias. -/
def oneBiasLin (i o : Nat) : LinearLayer :=
  ⟨List.replicate o (List.replicate i 0), List.replicate o 1⟩

/-- A deterministic stand-in for `nn.Embedding`'s random initialisation:
an all-zero table of the correct shape. -/
def zeroEmb (s d : Nat) : Mat := List.replicate s (List.replicate d 0)

/-- A deterministic `nn.LSTM` stand-in honouring the shape contract: every
input step maps to an all-zero hidden vector; the returned state still
carries gradient history, as a real LSTM's state does. -/
def zeroLSTM (i : Int) (h n : Nat) : LSTMModule :=
  ⟨i, h, n, fun inp _ =>
    (inp.map (fun s => s.map (fun _ => List.replicate h 0)), ⟨⟨[], true⟩, ⟨[], true⟩⟩)⟩

/-- An `nn.LSTM` stand-in that passes its input through unchanged (used for
concrete runs where only downstream layers matter). -/
def idLSTMmod (i : Int) (h n : Nat) : LSTMModule :=
  ⟨i, h, n, fun inp _ => (inp, ⟨⟨[], true⟩, ⟨[], true⟩⟩)⟩

/-- Deterministic collaborator initialisers built from the stand-ins. -/
def zeroInitP : InitParams := ⟨zeroEmb, zeroLin, zeroLSTM⟩

/-- Initialisers whose linear layers have bias one (so that batch-norm sees
a nonzero batch mean) and whose LSTM is the identity. -/
def oneBiasInitP : InitParams := ⟨zeroEmb, oneBiasLin, idLSTMmod⟩

/-- Concrete vocabulary with both an `activity` and a `resource` entry. -/
def vocAR : Vocabs := [("activity", ⟨4, 2, none⟩), ("resource", ⟨7, 3, none⟩)]

/-- Concrete vocabulary with an `activity` entry only. -/
def vocA : Vocabs := [("activity", ⟨4, 2, none⟩)]

/-- A three-column event row whose activity code is `a`. -/
def evRow (a : ℚ) : Vec := [a, 0, 0]

/-- A single-trace window batch: one window of five events, activity code 1. -/
def oneWindow : T3 := [List.replicate 5 (evRow 1)]

/-- A two-window batch (batch size 2), activity code 0. -/
def twoWindows : T3 := [List.replicate 5 (evRow 0), List.replicate 5 (evRow 0)]

/-- A placeholder model value (needed only to extract from `Option`). -/
def junkLSTMModel : MTCondLSTM :=
  { vocabs := []
    batch_size := 0
    hidden_size := 0
    num_layers := 0
    prefix_len := 0
    embeddings := []
    input_dim := 0
    lstm := zeroLSTM 0 0 0
    mlp := ⟨zeroLin 1 1, BatchNorm1d.init 1, zeroLin 1 1, BatchNorm1d.init 1⟩
    act_out := zeroLin 1 1
    rt_out := zeroLin 1 1
    res_out := zeroLin 1 1 }

/-- A placeholder specialized-variant model with an empty vocabulary. -/
def junkDGModel : MTCondDG :=
  { vocabs := []
    batch_size := 0
    hidden_size := 0
    num_layers := 0
    prefix_len := 0
    embeddings := []
    input_dim := 0
    lstm := zeroLSTM 0 0 0
    activity_block := ⟨0, 0, 0, 0, zeroLSTM 0 0 0, zeroLin 1 1⟩
    res_block := ⟨0, 0, 0, 0, zeroLSTM 0 0 0, zeroLin 1 1⟩
    time_block := ⟨0, 0, 0, 0, zeroLSTM 0 0 0, zeroLin 1 1⟩ }

/-- The shared-variant model built from `oneBiasInitP` on the
activity-only vocabulary (a concrete, fully evaluated construction). -/
def cexModel : MTCondLSTM := ((MTCondLSTM.make oneBiasInitP vocA 16).1).getD junkLSTMModel

/-- The shared-variant model built from the zero initialisers on the
two-feature vocabulary (a concrete, fully evaluated construction). -/
def mAR : MTCondLSTM := ((MTCondLSTM.make zeroInitP vocAR 16).1).getD junkLSTMModel

/-- A single five-event window carrying activity code 1, resource code 2
and a numeric remaining-time column. -/
def arWindow : T3 := [List.replicate 5 [1, 2, 0]]

/-- The specialized-variant model built from the zero initialisers on the
activity-only vocabulary. -/
def dgW : MTCondDG := ((MTCondDG.make zeroInitP vocA 16).1).getD junkDGModel

/-- The embedded form of `oneWindow` under the zero embedding tables. -/
def embW : T3 := [List.replicate 5 [0, 0, 0, 0]]

/-- The shared-variant model built from the zero initialisers on the
activity-only vocabulary. -/
def m4W : MTCondLSTM := ((MTCondLSTM.make zeroInitP vocA 16).1).getD junkLSTMModel

/-- An abstract reciprocal square root used for concrete runs. -/
def oneRsqrt : ℚ → ℚ := fun _ => 1

/-- Entry 0 of the first batch-norm layer's running mean after one concrete
training-mode forward pass of `cexModel`. -/
def cexNewRM : Option ℚ :=
  (MTCondLSTM.forward oneRsqrt cexModel twoWindows [0, 0] none).map
    (fun q => q.2.mlp.bn1.running_mean.getD 0 0)

/-- Run the shared variant twice on the same input, threading the model
returned by the first call (with its updated batch-norm buffers) into the
second call; returns both calls' output tuples. -/
def runTwice (rsqrt : ℚ → ℚ) (m : MTCondLSTM) (e : T3) (cond : Vec)
    (st : Option LSTMState) :
    Option ((Mat × Mat × Mat × LSTMState) × (Mat × Mat × Mat × LSTMState)) :=
  match MTCondLSTM.forward rsqrt m e cond st with
  | none => none
  | some q =>
    match MTCondLSTM.forward rsqrt q.2 e cond st with
    | none => none
    | some q2 => some (q.1, q2.1)

/-! Basic lemmas about the embedded layers. -/

theorem foldl_add_cast (l : Vocabs) (init : Int) :
    l.foldl (fun acc p => acc + (p.2.emb_dim : Int)) init = init + (totalEmb l : Int) := by
  induction l generalizing init with
  | nil => simp [totalEmb]
  | cons q qs ih =>
      simp only [List.foldl_cons, ih, totalEmb, List.map_cons, List.sum_cons]
      push_cast
      ring

theorem set_input_dim_eq (v : Vocabs) :
    set_input_dim v = 3 - (v.length : Int) + (totalEmb v : Int) := by
  simp [set_input_dim, foldl_add_cast]

/-- The entry that `_set_embeddings` writes back for a feature. -/
def updEntry (f : Nat → Nat → Mat) (en : VocabEntry) : VocabEntry :=
  { en with embedding_layer := some ⟨en.size, en.emb_dim, f en.size en.emb_dim⟩ }

/-- The embedding layer that `_set_embeddings` builds for a feature. -/
def layerOf (f : Nat → Nat → Mat) (en : VocabEntry) : EmbeddingLayer :=
  ⟨en.size, en.emb_dim, f en.size en.emb_dim⟩

theorem set_embeddings_snd (f : Nat → Nat → Mat) (v : Vocabs) :
    (set_embeddings f v).2 = v.map (fun p => (p.1, updEntry f p.2)) := rfl

theorem set_embeddings_fst (f : Nat → Nat → Mat) (v : Vocabs) :
    (set_embeddings f v).1 = v.map (fun p => (p.1, layerOf f p.2)) := by
  induction v with
  | nil => rfl
  | cons q qs ih =>
      simp only [set_embeddings, List.map_cons] at ih ⊢
      simp_all [updEntry, layerOf]

theorem dictLookup_map {α β : Type} (h : α → β) (k : String) (v : List (String × α)) :
    dictLookup k (v.map (fun p => (p.1, h p.2))) = (dictLookup k v).map h := by
  induction v with
  | nil => rfl
  | cons q qs ih =>
      by_cases hk : q.1 = k <;> simp [dictLookup, hk, ih]

theorem dictLookup_self {α : Type} (v : List (String × α))
    (hnd : (v.map Prod.fst).Nodup) (q : String × α) (hq : q ∈ v) :
    dictLookup q.1 v = some q.2 := by
  induction v with
  | nil => cases hq
  | cons p ps ih =>
      simp only [List.map_cons, List.nodup_cons] at hnd
      rcases List.mem_cons.mp hq with h | h
      · subst h; simp [dictLookup]
      · have hne : p.1 ≠ q.1 := by
          intro hEq
          exact hnd.1 (hEq ▸ List.mem_map_of_mem Prod.fst h)
        simp [dictLookup, hne, ih hnd.2 h]

theorem mapMo_eq_map {α β : Type} (l : List α) (g : α → Option β) (g' : α → β)
    (h : ∀ x ∈ l, g x = some (g' x)) : mapMo g l = some (l.map g') := by
  induction l with
  | nil => rfl
  | cons x xs ih =>
      have hx := h x (List.mem_cons_self x xs)
      have hxs := ih (fun y hy => h y (List.mem_cons_of_mem x hy))
      simp [mapMo, hx, hxs]

theorem mapMo_none {α β : Type} (l : List α) (g : α → Option β)
    (x : α) (hx : x ∈ l) (hgx : g x = none) : mapMo g l = none := by
  induction l with
  | nil => cases hx
  | cons y ys ih =>
      rcases List.mem_cons.mp hx with h | h
      · subst h; simp [mapMo, hgx]
      · cases hgy : g y <;> simp [mapMo, hgy, ih h]

/-! Core specification of the feature embedder. -/

theorem rowCodesOK_spec (v : Vocabs) (ev : Vec) (h : rowCodesOK v ev = true) :
    ∀ i, i < v.length →
      0 ≤ ratToLong (ev.getD i 0) ∧
        (ratToLong (ev.getD i 0)).toNat < (v.map (fun p => p.2.size)).getD i 0 := by
  intro i hi
  have hall := (List.all_eq_true.mp h) i (List.mem_range.mpr hi)
  simpa using hall

theorem codesOK_spec (v : Vocabs) (e : T3) (h : codesOK v e = true) :
    ∀ s ∈ e, ∀ ev ∈ s, rowCodesOK v ev = true := by
  intro s hs ev hev
  have hall := (List.all_eq_true.mp h) s hs
  exact (List.all_eq_true.mp hall) ev hev

theorem mEmbedRowAux_spec (f : Nat → Nat → Mat) (hWF : EmbInitWF f)
    (dict : List (String × EmbeddingLayer)) (l : Vocabs) :
    ∀ (ix : Nat) (ev : Vec),
    (∀ q ∈ l, dictLookup q.1 dict = some (layerOf f q.2)) →
    ix + l.length ≤ ev.length →
    (∀ i, i < l.length →
      0 ≤ ratToLong (ev.getD (ix + i) 0) ∧
        (ratToLong (ev.getD (ix + i) 0)).toNat < (l.map (fun p => p.2.size)).getD i 0) →
    mEmbedRowAux (l.map Prod.fst) dict ix ev = some (specCatSeq f l ix ev) ∧
      (specCatSeq f l ix ev).length = totalEmb l := by
  induction l with
  | nil => intro ix ev _ _ _; exact ⟨rfl, rfl⟩
  | cons q qs ih =>
      intro ix ev hdict hlen hcodes
      have hixlt : ix < ev.length := by
        simp only [List.length_cons] at hlen; omega
      have hget : ev[ix]? = some ev[ix] := List.getElem?_eq_getElem hixlt
      have hgetD : ev.getD ix 0 = ev[ix] := List.getD_eq_getElem ev 0 hixlt
      have hcode0 := hcodes 0 (by simp)
      rw [Nat.add_zero] at hcode0
      simp only [List.map_cons, List.getD_cons_zero] at hcode0
      have hdq := hdict q (List.mem_cons_self q qs)
      have hwl := hWF q.2.size q.2.emb_dim
      have htoNat : (ratToLong (ev.getD ix 0)).toNat < (f q.2.size q.2.emb_dim).length := by
        rw [hwl.1]; exact hcode0.2
      have hemb : embLookup (layerOf f q.2).weight (ratToLong ev[ix]) =
          some (f q.2.size q.2.emb_dim)[(ratToLong (ev.getD ix 0)).toNat] := by
        rw [← hgetD]
        simp only [embLookup, layerOf, if_pos hcode0.1]
        exact List.getElem?_eq_getElem htoNat
      have hrest := ih (ix + 1) ev
        (fun p hp => hdict p (List.mem_cons_of_mem q hp))
        (by simp only [List.length_cons] at hlen; omega)
        (by
          intro i hi
          have := hcodes (i + 1) (by simp only [List.length_cons]; omega)
          rw [show ix + (i + 1) = ix + 1 + i by omega] at this
          simpa using this)
      constructor
      · simp only [List.map_cons, mEmbedRowAux, hget, Option.bind_eq_bind,
          Option.some_bind, hdq, hemb, hrest.1, specCatSeq]
        rw [List.getD_eq_getElem (f q.2.size q.2.emb_dim) [] htoNat]
        rfl
      · simp only [specCatSeq, List.length_append, hrest.2, totalEmb, List.map_cons,
          List.sum_cons]
        have hmem : (f q.2.size q.2.emb_dim)[(ratToLong (ev.getD ix 0)).toNat] ∈
            f q.2.size q.2.emb_dim := List.getElem_mem htoNat
        have hrowlen := hwl.2 _ hmem
        rw [List.getD_eq_getElem (f q.2.size q.2.emb_dim) [] htoNat, hrowlen]

theorem mEmbedRow_spec (f : Nat → Nat → Mat) (hWF : EmbInitWF f)
    (dict : List (String × EmbeddingLayer)) (v : Vocabs) (hne : v ≠ []) (ev : Vec)
    (hdict : ∀ q ∈ v, dictLookup q.1 dict = some (layerOf f q.2))
    (hlen : v.length ≤ ev.length)
    (hcodes : rowCodesOK v ev = true) :
    mEmbedRow (v.map Prod.fst) dict ev =
      some (specCatSeq f v 0 ev ++ ev.drop v.length) ∧
      (specCatSeq f v 0 ev ++ ev.drop v.length).length =
        totalEmb v + (ev.length - v.length) := by
  have haux := mEmbedRowAux_spec f hWF dict v 0 ev hdict (by omega)
    (by intro i hi; simpa using rowCodesOK_spec v ev hcodes i hi)
  cases v with
  | nil => exact absurd rfl hne
  | cons q qs =>
      constructor
      · have h1 := haux.1
        simp only [List.map_cons] at h1
        simp only [List.map_cons, mEmbedRow, h1, Option.bind_eq_bind, Option.some_bind,
          List.length_cons, List.length_map]
        rfl
      · simp only [List.length_append, haux.2, List.length_drop, List.length_cons,
          List.length_map]

theorem mEmbed_spec (f : Nat → Nat → Mat) (v : Vocabs) (e : T3)
    (hWF : EmbInitWF f) (hnd : (v.map Prod.fst).Nodup) (hne : v ≠ [])
    (hrows : ∀ s ∈ e, ∀ ev ∈ s, v.length ≤ ev.length)
    (hcodes : codesOK v e = true) :
    mEmbed (v.map Prod.fst) (set_embeddings f v).1 e =
      some (e.map (fun s => s.map
        (fun ev => specCatSeq f v 0 ev ++ ev.drop v.length))) := by
  have hdict : ∀ q ∈ v, dictLookup q.1 (set_embeddings f v).1 = some (layerOf f q.2) := by
    intro q hq
    rw [set_embeddings_fst, dictLookup_map (layerOf f) q.1 v, dictLookup_self v hnd q hq]
    rfl
  have hrow : ∀ s ∈ e, mapMo (mEmbedRow (v.map Prod.fst) (set_embeddings f v).1) s =
      some (s.map (fun ev => specCatSeq f v 0 ev ++ ev.drop v.length)) := by
    intro s hs
    exact mapMo_eq_map s _ _ (fun ev hev =>
      (mEmbedRow_spec f hWF _ v hne ev hdict (hrows s hs ev hev)
        (codesOK_spec v e hcodes s hs ev hev)).1)
  cases v with
  | nil => exact absurd rfl hne
  | cons q qs =>
      simp only [List.map_cons, mEmbed]
      exact mapMo_eq_map e _ _ (fun s hs => by
        simpa using hrow s hs)

/-! Properties of the concrete initialiser stand-ins. -/

theorem zeroLin_wf : LinInitWF zeroLin := by
  intro i o
  refine ⟨by simp [zeroLin], fun r hr => ?_, by simp [zeroLin]⟩
  simpa using (List.eq_of_mem_replicate hr) ▸ (List.length_replicate i (0 : ℚ))

theorem oneBiasLin_wf : LinInitWF oneBiasLin := by
  intro i o
  refine ⟨by simp [oneBiasLin], fun r hr => ?_, by simp [oneBiasLin]⟩
  simpa using (List.eq_of_mem_replicate hr) ▸ (List.length_replicate i (0 : ℚ))

theorem zeroEmb_wf : EmbInitWF zeroEmb := by
  intro s d
  refine ⟨by simp [zeroEmb], fun r hr => ?_⟩
  simpa using (List.eq_of_mem_replicate hr) ▸ (List.length_replicate d (0 : ℚ))

theorem zeroLSTM_shape (i : Int) (h n inS : Nat) : LSTMRunShapeOK (zeroLSTM i h n) inS h := by
  intro inp st B L hB hRows
  refine ⟨by simpa [zeroLSTM] using hB, ?_⟩
  intro s hs
  simp only [zeroLSTM, List.mem_map] at hs
  obtain ⟨s0, hs0, rfl⟩ := hs
  refine ⟨by simpa using (hRows s0 hs0).1, ?_⟩
  intro r hr
  simp only [List.mem_map] at hr
  obtain ⟨r0, _, rfl⟩ := hr
  simp

theorem dictLookup_updated (f : Nat → Nat → Mat) (k : String) (v : Vocabs) :
    dictLookup k (set_embeddings f v).2 = (dictLookup k v).map (updEntry f) := by
  rw [set_embeddings_snd]
  exact dictLookup_map (updEntry f) k v

/-- C2: for every forward pass of either model variant, on any input and
any initial state, both tensors of the returned recurrent (hidden, cell)
state pair are detached from the autograd graph before being returned, so
the returned state carries no gradient history across a window boundary. -/
theorem C2_returned_state_detached (rsqrt : ℚ → ℚ) (m : MTCondLSTM) (e : T3)
    (cond : Vec) (st : Option LSTMState) (m2 : MTCondDG) (e2 : T3) (cond2 : Vec)
    (st2 : Option LSTMState) :
    (MTCondLSTM.forward rsqrt m e cond st).all (fun q => stateDetached q.1.2.2.2) = true ∧
      (MTCondDG.forward m2 e2 cond2 st2).all (fun q => stateDetached q.2.2.2) = true := by
  constructor
  · cases hE : mEmbed (m.vocabs.map Prod.fst) m.embeddings e with
    | none => simp [MTCondLSTM.forward, hE]
    | some emb =>
        simp only [MTCondLSTM.forward, hE]
        split <;> simp [stateDetached, detachState, TaggedT3.detach]
  · cases hE : mEmbed (m2.vocabs.map Prod.fst) m2.embeddings e2 <;>
      simp [MTCondDG.forward, hE, stateDetached, detachState, TaggedT3.detach]

/-- C6 counterexample: constructing a model from a concrete vocabulary does
not leave the caller's vocabulary unchanged - the per-feature entry gains
an `embedding_layer` key. -/
theorem C6_counterexample : (MTCondLSTM.make zeroInitP vocA 16).2 ≠ vocA := by decide

/-- C6 (amended): construction preserves every entry's name, `size` and
`emb_dim` and adds exactly the `embedding_layer` key to each per-feature
entry (the side channel that hands the learned embedding back through the
shared vocabs object); both constructors expose exactly the
`_set_embeddings`-mutated vocabulary to the caller. -/
theorem C6_amended (f : Nat → Nat → Mat) (v : Vocabs) (p : InitParams) (bs : Nat) :
    (set_embeddings f v).2.map (fun q => (q.1, q.2.size, q.2.emb_dim)) =
        v.map (fun q => (q.1, q.2.size, q.2.emb_dim)) ∧
      (set_embeddings f v).2.map (fun q => q.2.embedding_layer) =
        v.map (fun q => some (layerOf f q.2)) ∧
      (MTCondLSTM.make p v bs).2 = (set_embeddings p.embInit v).2 ∧
      (MTCondDG.make p v bs).2 = (set_embeddings p.embInit v).2 := by
  refine ⟨?_, ?_, ?_, ?_⟩
  · rw [set_embeddings_snd, List.map_map]
    rfl
  · rw [set_embeddings_snd, List.map_map]
    rfl
  · cases h : dictLookup "activity" (set_embeddings p.embInit v).2 <;>
      simp [MTCondLSTM.make, h]
  · cases h : dictLookup "activity" (set_embeddings p.embInit v).2 <;>
      simp [MTCondDG.make, h]

/-- C8: a configuration error - an unknown dataset name, or a hidden size
smaller than the input size - is detected before any training starts and
aborts the run; on such a configuration the outcome is never `trained`,
and when the run is not short-circuited by the `bpi19` exit or the
existing-experiment skip, the specific error outcome is produced. -/
theorem C8_config_errors_eager (env : TrainEnv) (cfg : TrainConfig)
    (hbad : env.logReaders.contains cfg.dataset = false ∨
      cfg.hidden_size < cfg.input_size) :
    trainMain env cfg ≠ RunOutcome.trained ∧
      (cfg.dataset ≠ "bpi19" → env.experimentExists cfg = false →
        (cfg.hidden_size < cfg.input_size →
          trainMain env cfg = RunOutcome.configErrorHiddenSize) ∧
        (¬ cfg.hidden_size < cfg.input_size →
          env.logReaders.contains cfg.dataset = false →
          trainMain env cfg = RunOutcome.errorDatasetNotFound)) := by
  constructor
  · unfold trainMain runTraining
    rcases hbad with h | h <;>
      · split_ifs <;> simp_all
  · intro h19 hskip
    constructor
    · intro hlt
      simp [trainMain, h19, hskip, hlt]
    · intro hge hds
      simp only [trainMain, runTraining, if_neg h19, hskip, Bool.false_eq_true,
        if_false, if_neg hge, hds, if_neg (by simpa using hds)]

/-- C8 witness: a concrete environment knowing only `bpi20_permit` and a
concrete unknown-dataset configuration. -/
theorem C8_witness :
    ((TrainEnv.mk ["bpi20_permit"] (fun _ => false)).logReaders.contains
        (TrainConfig.mk "nosuch" 256 32).dataset = false ∨
      (TrainConfig.mk "nosuch" 256 32).hidden_size <
        (TrainConfig.mk "nosuch" 256 32).input_size) ∧
    trainMain (TrainEnv.mk ["bpi20_permit"] (fun _ => false))
        (TrainConfig.mk "nosuch" 256 32) ≠ RunOutcome.trained := by
  refine ⟨Or.inl (by decide), ?_⟩
  exact (C8_config_errors_eager (TrainEnv.mk ["bpi20_permit"] (fun _ => false))
    (TrainConfig.mk "nosuch" 256 32) (Or.inl (by decide))).1

/-- C10: the feature embedder requires at least one categorical feature:
with an empty vocabulary both variants' embedding step fails (in the
source the loop variable is never bound and no embedded tensor exists), so
the forward pass errors rather than returning the numeric columns alone;
with a nonempty vocabulary, well-shaped input and in-range codes it is
total. -/
theorem C10_empty_vocab_fails (rsqrt : ℚ → ℚ) (m : MTCondLSTM) (m2 : MTCondDG)
    (e : T3) (cond : Vec) (st : Option LSTMState)
    (f : Nat → Nat → Mat) (v : Vocabs) (e2 : T3) :
    (m.vocabs = [] → MTCondLSTM.forward rsqrt m e cond st = none) ∧
      (m2.vocabs = [] → MTCondDG.forward m2 e cond st = none) ∧
      (EmbInitWF f → (v.map Prod.fst).Nodup → v ≠ [] →
        (∀ s ∈ e2, ∀ ev ∈ s, v.length ≤ ev.length) → codesOK v e2 = true →
        (mEmbed (v.map Prod.fst) (set_embeddings f v).1 e2).isSome = true) := by
  refine ⟨?_, ?_, ?_⟩
  · intro hv
    simp [MTCondLSTM.forward, mEmbed, hv]
  · intro hv
    simp [MTCondDG.forward, mEmbed, hv]
  · intro hWF hnd hne hrows hcodes
    rw [mEmbed_spec f v e2 hWF hnd hne hrows hcodes]
    rfl

/-- C10 witness: concrete empty-vocabulary models fail on a concrete
window, and the embedder succeeds on the activity-only vocabulary on a
concrete in-range window. -/
theorem C10_witness :
    junkLSTMModel.vocabs = [] ∧
    MTCondLSTM.forward oneRsqrt junkLSTMModel oneWindow [0] none = none ∧
    junkDGModel.vocabs = [] ∧
    MTCondDG.forward junkDGModel oneWindow [0] none = none ∧
    vocA ≠ [] ∧ codesOK vocA oneWindow = true ∧
    (mEmbed (vocA.map Prod.fst) (set_embeddings zeroEmb vocA).1 oneWindow).isSome = true := by
  have h := C10_empty_vocab_fails oneRsqrt junkLSTMModel junkDGModel oneWindow [0] none
    zeroEmb vocA oneWindow
  exact ⟨rfl, h.1 rfl, rfl, h.2.1 rfl, by decide,
    by decide,
    h.2.2 zeroEmb_wf (by decide) (by decide) (by decide) (by decide)⟩

/-- C1: for every vocabulary (with the mandatory `activity` entry so that
construction succeeds), constructing either variant with a `resource`
entry of size `R` yields a resource head of output width `R`, and
constructing without one yields width `1`; the width is fixed by the
construction-time check alone, and a forward pass never replaces the
resource head. -/
theorem C1_resource_head_width (p : InitParams) (v : Vocabs) (bs : Nat)
    (hLin : LinInitWF p.linInit) (hAct : (dictLookup "activity" v).isSome = true) :
    (∀ er, dictLookup "resource" v = some er →
        lstmResWidth (MTCondLSTM.make p v bs).1 = some er.size ∧
          dgResWidth (MTCondDG.make p v bs).1 = some er.size) ∧
      (dictLookup "resource" v = none →
        lstmResWidth (MTCondLSTM.make p v bs).1 = some 1 ∧
          dgResWidth (MTCondDG.make p v bs).1 = some 1) ∧
      (∀ (rsqrt : ℚ → ℚ) (m : MTCondLSTM) (e : T3) (cond : Vec) (st : Option LSTMState),
        (MTCondLSTM.forward rsqrt m e cond st).elim True
          (fun q => q.2.res_out = m.res_out)) := by
  obtain ⟨a, ha⟩ := Option.isSome_iff_exists.mp hAct
  have hact2 : dictLookup "activity" (set_embeddings p.embInit v).2 =
      some (updEntry p.embInit a) := by
    rw [dictLookup_updated, ha]; rfl
  refine ⟨?_, ?_, ?_⟩
  · intro er hr
    have hres2 : dictLookup "resource" (set_embeddings p.embInit v).2 =
        some (updEntry p.embInit er) := by
      rw [dictLookup_updated, hr]; rfl
    constructor
    · simp only [MTCondLSTM.make, hact2, hres2, lstmResWidth, Option.map_some]
      exact congrArg some (hLin 256 er.size).1
    · simp only [MTCondDG.make, hact2, hres2, dgResWidth, SpecializedBlock.make,
        Option.map_some]
      exact congrArg some (hLin (1 + 256 * 5) er.size).1
  · intro hr
    have hres2 : dictLookup "resource" (set_embeddings p.embInit v).2 = none := by
      rw [dictLookup_updated, hr]; rfl
    constructor
    · simp only [MTCondLSTM.make, hact2, hres2, lstmResWidth, Option.map_some]
      exact congrArg some (hLin 256 1).1
    · simp only [MTCondDG.make, hact2, hres2, dgResWidth, SpecializedBlock.make,
        Option.map_some]
      exact congrArg some (hLin (1 + 256 * 5) 1).1
  · intro rsqrt m e cond st
    cases hE : mEmbed (m.vocabs.map Prod.fst) m.embeddings e with
    | none => simp [MTCondLSTM.forward, hE]
    | some emb =>
        simp only [MTCondLSTM.forward, hE]
        split <;> simp

/-- C1 witness: concrete vocabularies with and without a `resource` entry,
concrete zero initialisers. -/
theorem C1_witness :
    LinInitWF zeroLin ∧ (dictLookup "activity" vocAR).isSome = true ∧
    dictLookup "resource" vocAR = some ⟨7, 3, none⟩ ∧
    lstmResWidth (MTCondLSTM.make zeroInitP vocAR 16).1 = some 7 ∧
    dgResWidth (MTCondDG.make zeroInitP vocAR 16).1 = some 7 ∧
    dictLookup "resource" vocA = none ∧
    lstmResWidth (MTCondLSTM.make zeroInitP vocA 16).1 = some 1 ∧
    dgResWidth (MTCondDG.make zeroInitP vocA 16).1 = some 1 := by
  have hR := C1_resource_head_width zeroInitP vocAR 16 zeroLin_wf (by decide)
  have hN := C1_resource_head_width zeroInitP vocA 16 zeroLin_wf (by decide)
  have hr : dictLookup "resource" vocAR = some ⟨7, 3, none⟩ := by decide
  have hn : dictLookup "resource" vocA = none := by decide
  exact ⟨zeroLin_wf, by decide, hr, (hR.1 _ hr).1, (hR.1 _ hr).2, hn,
    (hN.2.1 hn).1, (hN.2.1 hn).2⟩

theorem mEmbed_ne (features : List String) (dict : List (String × EmbeddingLayer))
    (e : T3) (h : features ≠ []) :
    mEmbed features dict e = mapMo (fun seq => mapMo (mEmbedRow features dict) seq) e := by
  cases features with
  | nil => exact absurd rfl h
  | cons f fs => rfl

theorem mEmbedRow_ne (features : List String) (dict : List (String × EmbeddingLayer))
    (ev : Vec) (h : features ≠ []) :
    mEmbedRow features dict ev = (mEmbedRowAux features dict 0 ev).bind
      (fun cat => some (cat ++ ev.drop features.length)) := by
  cases features with
  | nil => exact absurd rfl h
  | cons f fs => rfl

theorem mEmbedRowAux_none (dict : List (String × EmbeddingLayer)) (l : List String) :
    ∀ (ix : Nat) (ev : Vec) (i : Nat), i < l.length →
    (ev[ix + i]?.bind (fun v => (dictLookup (l.getD i "") dict).bind
      (fun layer => embLookup layer.weight (ratToLong v)))) = none →
    mEmbedRowAux l dict ix ev = none := by
  induction l with
  | nil => intro ix ev i hi; exact absurd hi (by simp)
  | cons f fs ih =>
      intro ix ev i hi hstep
      cases i with
      | zero =>
          rw [Nat.add_zero] at hstep
          simp only [List.getD_cons_zero] at hstep
          cases hv : ev[ix]? with
          | none => simp [mEmbedRowAux, hv]
          | some v =>
              rw [hv] at hstep
              simp only [Option.some_bind] at hstep
              cases hl : dictLookup f dict with
              | none => simp [mEmbedRowAux, hv, hl]
              | some layer =>
                  rw [hl] at hstep
                  simp only [Option.some_bind] at hstep
                  simp [mEmbedRowAux, hv, hl, hstep]
      | succ j =>
          have hj : j < fs.length := by simpa using hi
          have hstep2 : (ev[ix + 1 + j]?.bind (fun v =>
              (dictLookup (fs.getD j "") dict).bind
                (fun layer => embLookup layer.weight (ratToLong v)))) = none := by
            rw [show ix + 1 + j = ix + (j + 1) by omega]
            simpa using hstep
          have hrec := ih (ix + 1) ev j hj hstep2
          cases hv : ev[ix]? with
          | none => simp [mEmbedRowAux, hv]
          | some v =>
              cases hl : dictLookup f dict with
              | none => simp [mEmbedRowAux, hv, hl]
              | some layer =>
                  cases he : embLookup layer.weight (ratToLong v) with
                  | none => simp [mEmbedRowAux, hv, hl, he]
                  | some w => simp [mEmbedRowAux, hv, hl, he, hrec]

/-- C7: embedding lookup on an integer code inside `[0, size)` succeeds and
returns exactly row `c` of the table (no remapping); a code outside
`[0, size)` fails with an index-range error; and such a failure anywhere in
a batch is fatal for the whole embedding step, never silently truncated. -/
theorem C7_embedding_lookup_range (w : Mat) (c : Int) (sz : Nat) (hw : w.length = sz)
    (f : Nat → Nat → Mat) (hWF : EmbInitWF f) (v : Vocabs)
    (hnd : (v.map Prod.fst).Nodup) (e : T3) (s : Mat) (ev : Vec) (i : Nat)
    (hs : s ∈ e) (hev : ev ∈ s) (hiv : i < v.length) (hie : i < ev.length)
    (hbad : ¬ (0 ≤ ratToLong (ev.getD i 0) ∧
      (ratToLong (ev.getD i 0)).toNat < (v.map (fun p => p.2.size)).getD i 0)) :
    (0 ≤ c ∧ c.toNat < sz → embLookup w c = some (w.getD c.toNat [])) ∧
      (¬ (0 ≤ c ∧ c.toNat < sz) → embLookup w c = none) ∧
      mEmbed (v.map Prod.fst) (set_embeddings f v).1 e = none := by
  refine ⟨?_, ?_, ?_⟩
  · rintro ⟨h0, hlt⟩
    rw [embLookup, if_pos h0, List.getElem?_eq_getElem (by omega),
      List.getD_eq_getElem w [] (by omega)]
  · intro hout
    by_cases h0 : 0 ≤ c
    · have hge : sz ≤ c.toNat := by
        rcases Nat.lt_or_ge c.toNat sz with h | h
        · exact absurd ⟨h0, h⟩ hout
        · exact h
      rw [embLookup, if_pos h0, List.getElem?_eq_none (by omega)]
    · rw [embLookup, if_neg h0]
  · -- the failing feature lookup kills the whole row, hence the whole batch
    have hq : v[i] ∈ v := List.getElem_mem hiv
    have hdict : dictLookup (v[i]).1 (set_embeddings f v).1 = some (layerOf f (v[i]).2) := by
      rw [set_embeddings_fst, dictLookup_map (layerOf f) _ v, dictLookup_self v hnd _ hq]
      rfl
    have hname : (v.map Prod.fst).getD i "" = (v[i]).1 := by
      rw [List.getD_eq_getElem (v.map Prod.fst) "" (by simpa using hiv)]
      simp
    have hsize : (v.map (fun p => p.2.size)).getD i 0 = (v[i]).2.size := by
      rw [List.getD_eq_getElem (v.map (fun p => p.2.size)) 0 (by simpa using hiv)]
      simp
    have hevi : ev[0 + i]? = some (ev.getD i 0) := by
      rw [Nat.zero_add, List.getElem?_eq_getElem hie, List.getD_eq_getElem ev 0 hie]
    have hfail : embLookup (layerOf f (v[i]).2).weight (ratToLong (ev.getD i 0)) = none := by
      rw [hsize] at hbad
      by_cases h0 : 0 ≤ ratToLong (ev.getD i 0)
      · have hge : (v[i]).2.size ≤ (ratToLong (ev.getD i 0)).toNat := by
          rcases Nat.lt_or_ge (ratToLong (ev.getD i 0)).toNat (v[i]).2.size with h | h
          · exact absurd ⟨h0, h⟩ hbad
          · exact h
        have hlen : (layerOf f (v[i]).2).weight.length = (v[i]).2.size :=
          (hWF (v[i]).2.size (v[i]).2.emb_dim).1
        rw [embLookup, if_pos h0, List.getElem?_eq_none (by omega)]
      · rw [embLookup, if_neg h0]
    have hstep : (ev[0 + i]?.bind (fun val =>
        (dictLookup ((v.map Prod.fst).getD i "") (set_embeddings f v).1).bind
          (fun layer => embLookup layer.weight (ratToLong val)))) = none := by
      rw [hevi, hname]
      simp only [Option.some_bind, hdict, hfail]
    have haux := mEmbedRowAux_none (set_embeddings f v).1 (v.map Prod.fst) 0 ev i
      (by simpa using hiv) hstep
    have hne : v.map Prod.fst ≠ [] := by
      intro h
      have : v.length = 0 := by simpa using congrArg List.length h
      omega
    have hrow : mEmbedRow (v.map Prod.fst) (set_embeddings f v).1 ev = none := by
      rw [mEmbedRow_ne _ _ _ hne, haux]
      rfl
    have hseq : mapMo (mEmbedRow (v.map Prod.fst) (set_embeddings f v).1) s = none :=
      mapMo_none s _ ev hev hrow
    rw [mEmbed_ne _ _ _ hne]
    exact mapMo_none e _ s hs hseq

/-- C7 witness: a concrete 3-row table with an in-range code (2) and an
out-of-range code (5), and a concrete batch whose activity code 9 exceeds
the activity vocabulary size 4, which kills the whole embedding step. -/
theorem C7_witness :
    ([[1], [2], [3]] : Mat).length = 3 ∧
    EmbInitWF zeroEmb ∧ (vocA.map Prod.fst).Nodup ∧
    ¬ (0 ≤ ratToLong (([9, 0, 0] : Vec).getD 0 0) ∧
      (ratToLong (([9, 0, 0] : Vec).getD 0 0)).toNat <
        (vocA.map (fun p => p.2.size)).getD 0 0) ∧
    embLookup [[1], [2], [3]] 2 = some [3] ∧
    embLookup [[1], [2], [3]] 5 = none ∧
    mEmbed (vocA.map Prod.fst) (set_embeddings zeroEmb vocA).1 [[[9, 0, 0]]] = none := by
  have h2 := C7_embedding_lookup_range [[1], [2], [3]] 2 3 rfl zeroEmb zeroEmb_wf vocA
    (by decide) [[[9, 0, 0]]] [[9, 0, 0]] [9, 0, 0] 0 (by simp) (by simp)
    (by decide) (by decide) (by decide)
  have h5 := C7_embedding_lookup_range [[1], [2], [3]] 5 3 rfl zeroEmb zeroEmb_wf vocA
    (by decide) [[[9, 0, 0]]] [[9, 0, 0]] [9, 0, 0] 0 (by simp) (by simp)
    (by decide) (by decide) (by decide)
  refine ⟨rfl, zeroEmb_wf, by decide, by decide, ?_, ?_, h2.2.2⟩
  · simpa using h2.1 (by decide)
  · exact h5.2.1 (by decide)

theorem updated_names (f : Nat → Nat → Mat) (v : Vocabs) :
    ((set_embeddings f v).2).map Prod.fst = v.map Prod.fst := by
  rw [set_embeddings_snd, List.map_map]
  rfl

theorem updated_length (f : Nat → Nat → Mat) (v : Vocabs) :
    ((set_embeddings f v).2).length = v.length := by
  rw [set_embeddings_snd, List.length_map]

theorem totalEmb_updated (f : Nat → Nat → Mat) (v : Vocabs) :
    totalEmb ((set_embeddings f v).2) = totalEmb v := by
  rw [set_embeddings_snd]
  simp only [totalEmb, List.map_map]
  rfl

/-- C3: for every constructed model, the precomputed input dimension is
`3 - #categorical features + Σ emb_dim`; and on every in-range batch of
shape `(B, L, 3)` the embedder succeeds, its output has `B` windows of `L`
rows whose width equals that input dimension, each row being the declared-
order concatenation of the per-feature embeddings followed by the
remaining numeric columns verbatim. -/
theorem C3_input_dim_and_embed_shape (p : InitParams) (v : Vocabs) (bs : Nat)
    (m : MTCondLSTM) (B L : Nat) (e : T3)
    (hEmb : EmbInitWF p.embInit)
    (hMk : (MTCondLSTM.make p v bs).1 = some m)
    (hnd : (v.map Prod.fst).Nodup) (hne : v ≠ []) (hn3 : v.length ≤ 3)
    (hB : e.length = B) (hL : ∀ s ∈ e, s.length = L ∧ ∀ r ∈ s, r.length = 3)
    (hcodes : codesOK v e = true) :
    m.input_dim = 3 - (v.length : Int) + (totalEmb v : Int) ∧
      (embedOutWidth v : Int) = m.input_dim ∧
      mEmbed (m.vocabs.map Prod.fst) m.embeddings e =
        some (e.map (fun s => s.map (fun ev =>
          specCatSeq p.embInit v 0 ev ++ ev.drop v.length))) ∧
      (e.map (fun s => s.map (fun ev =>
          specCatSeq p.embInit v 0 ev ++ ev.drop v.length))).length = B ∧
      (∀ s ∈ (e.map (fun s => s.map (fun ev =>
          specCatSeq p.embInit v 0 ev ++ ev.drop v.length))),
        s.length = L ∧ ∀ r ∈ s, r.length = embedOutWidth v) := by
  have hA : ∃ a, dictLookup "activity" (set_embeddings p.embInit v).2 = some a := by
    cases h : dictLookup "activity" (set_embeddings p.embInit v).2 with
    | none => simp [MTCondLSTM.make, h] at hMk
    | some a => exact ⟨a, rfl⟩
  obtain ⟨a, hA⟩ := hA
  simp only [MTCondLSTM.make, hA] at hMk
  have hMk2 := Option.some.inj hMk
  subst hMk2
  have hdim : set_input_dim (set_embeddings p.embInit v).2 =
      3 - (v.length : Int) + (totalEmb v : Int) := by
    rw [set_input_dim_eq, updated_length, totalEmb_updated]
  have hdict : ∀ q ∈ v, dictLookup q.1 (set_embeddings p.embInit v).1 =
      some (layerOf p.embInit q.2) := by
    intro q hq
    rw [set_embeddings_fst, dictLookup_map (layerOf p.embInit) q.1 v,
      dictLookup_self v hnd q hq]
    rfl
  have hrows : ∀ s ∈ e, ∀ ev ∈ s, v.length ≤ ev.length := by
    intro s hs ev hev
    rw [(hL s hs).2 ev hev]
    exact hn3
  refine ⟨hdim, ?_, ?_, ?_, ?_⟩
  · show ((embedOutWidth v : Nat) : Int) = set_input_dim (set_embeddings p.embInit v).2
    rw [hdim, embedOutWidth]
    push_cast [Nat.cast_sub hn3]
    ring
  · show mEmbed (((set_embeddings p.embInit v).2).map Prod.fst)
        (set_embeddings p.embInit v).1 e = _
    rw [updated_names]
    exact mEmbed_spec p.embInit v e hEmb hnd hne hrows hcodes
  · simpa using hB
  · intro s hs
    rw [List.mem_map] at hs
    obtain ⟨s0, hs0, rfl⟩ := hs
    refine ⟨by simpa using (hL s0 hs0).1, ?_⟩
    intro r hr
    rw [List.mem_map] at hr
    obtain ⟨ev, hev, rfl⟩ := hr
    have hspec := (mEmbedRow_spec p.embInit hEmb (set_embeddings p.embInit v).1 v hne ev
      hdict (hrows s0 hs0 ev hev) (codesOK_spec v e hcodes s0 hs0 ev hev)).2
    rw [hspec, (hL s0 hs0).2 ev hev, embedOutWidth]

/-- C3 witness: the concrete two-feature vocabulary (embedding widths 2 and
3) on a concrete single-window batch: input dimension 6, embedder output of
shape `(1, 5, 6)`. -/
theorem C3_witness :
    EmbInitWF zeroEmb ∧
    (MTCondLSTM.make zeroInitP vocAR 16).1 = some mAR ∧
    (vocAR.map Prod.fst).Nodup ∧ vocAR ≠ [] ∧ vocAR.length ≤ 3 ∧
    arWindow.length = 1 ∧
    (∀ s ∈ arWindow, s.length = 5 ∧ ∀ r ∈ s, r.length = 3) ∧
    codesOK vocAR arWindow = true ∧
    (mAR.input_dim = 3 - (vocAR.length : Int) + (totalEmb vocAR : Int) ∧
      (embedOutWidth vocAR : Int) = mAR.input_dim ∧
      mEmbed (mAR.vocabs.map Prod.fst) mAR.embeddings arWindow =
        some (arWindow.map (fun s => s.map (fun ev =>
          specCatSeq zeroEmb vocAR 0 ev ++ ev.drop vocAR.length))) ∧
      (arWindow.map (fun s => s.map (fun ev =>
          specCatSeq zeroEmb vocAR 0 ev ++ ev.drop vocAR.length))).length = 1 ∧
      (∀ s ∈ (arWindow.map (fun s => s.map (fun ev =>
          specCatSeq zeroEmb vocAR 0 ev ++ ev.drop vocAR.length))),
        s.length = 5 ∧ ∀ r ∈ s, r.length = embedOutWidth vocAR)) := by
  refine ⟨zeroEmb_wf, rfl, by decide, by decide, by decide, rfl, by decide, by decide, ?_⟩
  exact C3_input_dim_and_embed_shape zeroInitP vocAR 16 mAR 1 5 arWindow
    zeroEmb_wf rfl (by decide) (by decide) (by decide) rfl (by decide) (by decide)

/-- C9: in the specialized variant's forward pass the trunk LSTM state is
detached and handed to all three specialized blocks as their initial
state, and exactly that detached trunk state is returned as `new_state`;
the blocks' own states are discarded - replacing all three blocks cannot
change the returned state. -/
theorem C9_trunk_state_flow (m : MTCondDG) (e : T3) (cond : Vec)
    (st : Option LSTMState) (emb : T3)
    (hE : mEmbed (m.vocabs.map Prod.fst) m.embeddings e = some emb) :
    MTCondDG.forward m e cond st =
      some ((m.activity_block.forward (m.lstm.run emb st).1
               (detachState (m.lstm.run emb st).2) cond).1,
            (m.res_block.forward (m.lstm.run emb st).1
               (detachState (m.lstm.run emb st).2) cond).1,
            (m.time_block.forward (m.lstm.run emb st).1
               (detachState (m.lstm.run emb st).2) cond).1,
            detachState (m.lstm.run emb st).2) ∧
      (∀ ba br bt : SpecializedBlock,
        (MTCondDG.forward
            { m with activity_block := ba, res_block := br, time_block := bt }
            e cond st).map (fun q => q.2.2.2) =
          some (detachState (m.lstm.run emb st).2)) := by
  constructor
  · simp [MTCondDG.forward, hE]
  · intro ba br bt
    simp [MTCondDG.forward, hE]

/-- C9 witness: the concrete specialized model on a concrete window; its
embedded input evaluates, and the conclusion holds at that instance. -/
theorem C9_witness :
    mEmbed (dgW.vocabs.map Prod.fst) dgW.embeddings oneWindow = some embW ∧
    (MTCondDG.forward dgW oneWindow [0] none =
      some ((dgW.activity_block.forward (dgW.lstm.run embW none).1
               (detachState (dgW.lstm.run embW none).2) [0]).1,
            (dgW.res_block.forward (dgW.lstm.run embW none).1
               (detachState (dgW.lstm.run embW none).2) [0]).1,
            (dgW.time_block.forward (dgW.lstm.run embW none).1
               (detachState (dgW.lstm.run embW none).2) [0]).1,
            detachState (dgW.lstm.run embW none).2) ∧
      (∀ ba br bt : SpecializedBlock,
        (MTCondDG.forward
            { dgW with activity_block := ba, res_block := br, time_block := bt }
            oneWindow [0] none).map (fun q => q.2.2.2) =
          some (detachState (dgW.lstm.run embW none).2))) := by
  have hE : mEmbed (dgW.vocabs.map Prod.fst) dgW.embeddings oneWindow = some embW := by
    decide
  exact ⟨hE, C9_trunk_state_flow dgW oneWindow [0] none embW hE⟩

theorem bn_forward_some_step (rsqrt : ℚ → ℚ) (bn : BatchNorm1d) (xs : Mat)
    (p : Mat × BatchNorm1d) (h : bn.forward rsqrt xs = some p) :
    (p = bn.trainStep rsqrt xs ∧ bn.training = true) ∨
      (p = bn.evalStep rsqrt xs ∧ bn.training = false) := by
  unfold BatchNorm1d.forward at h
  split_ifs at h with h1 h2
  · exact Or.inl ⟨(Option.some.inj h).symm, h1⟩
  · exact Or.inr ⟨(Option.some.inj h).symm, by simpa using h1⟩

theorem bn_forward_train (rsqrt : ℚ → ℚ) (bn : BatchNorm1d) (xs : Mat)
    (ht : bn.training = true) (hl : xs.length ≠ 1) :
    bn.forward rsqrt xs = some (bn.trainStep rsqrt xs) := by
  unfold BatchNorm1d.forward
  rw [if_pos ht, if_neg hl]

theorem bn_forward_eval (rsqrt : ℚ → ℚ) (bn : BatchNorm1d) (xs : Mat)
    (ht : bn.training = false) :
    bn.forward rsqrt xs = some (bn.evalStep rsqrt xs) := by
  unfold BatchNorm1d.forward
  rw [if_neg (by simp [ht])]

theorem trainStep_snd_fields (rsqrt : ℚ → ℚ) (bn : BatchNorm1d) (xs : Mat) :
    (bn.trainStep rsqrt xs).2.num_features = bn.num_features ∧
      (bn.trainStep rsqrt xs).2.gamma = bn.gamma ∧
      (bn.trainStep rsqrt xs).2.beta = bn.beta ∧
      (bn.trainStep rsqrt xs).2.momentum = bn.momentum ∧
      (bn.trainStep rsqrt xs).2.eps = bn.eps ∧
      (bn.trainStep rsqrt xs).2.training = bn.training :=
  ⟨rfl, rfl, rfl, rfl, rfl, rfl⟩

theorem evalStep_snd (rsqrt : ℚ → ℚ) (bn : BatchNorm1d) (xs : Mat) :
    (bn.evalStep rsqrt xs).2 = bn := rfl

theorem trainStep_fst_length (rsqrt : ℚ → ℚ) (bn : BatchNorm1d) (xs : Mat) :
    (bn.trainStep rsqrt xs).1.length = xs.length := by
  simp [BatchNorm1d.trainStep]

theorem evalStep_fst_length (rsqrt : ℚ → ℚ) (bn : BatchNorm1d) (xs : Mat) :
    (bn.evalStep rsqrt xs).1.length = xs.length := by
  simp [BatchNorm1d.evalStep]

theorem trainStep_fst_width (rsqrt : ℚ → ℚ) (bn : BatchNorm1d) (xs : Mat) :
    ∀ r ∈ (bn.trainStep rsqrt xs).1, r.length = bn.num_features := by
  intro r hr
  simp only [BatchNorm1d.trainStep, List.mem_map] at hr
  obtain ⟨r0, _, rfl⟩ := hr
  simp

theorem evalStep_fst_width (rsqrt : ℚ → ℚ) (bn : BatchNorm1d) (xs : Mat) :
    ∀ r ∈ (bn.evalStep rsqrt xs).1, r.length = bn.num_features := by
  intro r hr
  simp only [BatchNorm1d.evalStep, List.mem_map] at hr
  obtain ⟨r0, _, rfl⟩ := hr
  simp

theorem bn_forward_some_fields (rsqrt : ℚ → ℚ) (bn : BatchNorm1d) (xs : Mat)
    (p : Mat × BatchNorm1d) (h : bn.forward rsqrt xs = some p) :
    p.2.num_features = bn.num_features ∧ p.2.gamma = bn.gamma ∧ p.2.beta = bn.beta ∧
      p.2.momentum = bn.momentum ∧ p.2.eps = bn.eps ∧ p.2.training = bn.training := by
  rcases bn_forward_some_step rsqrt bn xs p h with ⟨rfl, _⟩ | ⟨rfl, _⟩
  · exact trainStep_snd_fields rsqrt bn xs
  · rw [evalStep_snd]
    exact ⟨rfl, rfl, rfl, rfl, rfl, rfl⟩

theorem bn_forward_snd_eval (rsqrt : ℚ → ℚ) (bn : BatchNorm1d) (xs : Mat)
    (p : Mat × BatchNorm1d) (h : bn.forward rsqrt xs = some p)
    (ht : bn.training = false) : p.2 = bn := by
  rcases bn_forward_some_step rsqrt bn xs p h with ⟨rfl, htr⟩ | ⟨rfl, _⟩
  · rw [ht] at htr
    exact Bool.noConfusion htr
  · exact evalStep_snd rsqrt bn xs

theorem bn_forward_some_fst_length (rsqrt : ℚ → ℚ) (bn : BatchNorm1d) (xs : Mat)
    (p : Mat × BatchNorm1d) (h : bn.forward rsqrt xs = some p) :
    p.1.length = xs.length := by
  rcases bn_forward_some_step rsqrt bn xs p h with ⟨rfl, _⟩ | ⟨rfl, _⟩
  · exact trainStep_fst_length rsqrt bn xs
  · exact evalStep_fst_length rsqrt bn xs

theorem bn_forward_some_fst_width (rsqrt : ℚ → ℚ) (bn : BatchNorm1d) (xs : Mat)
    (p : Mat × BatchNorm1d) (h : bn.forward rsqrt xs = some p) :
    ∀ r ∈ p.1, r.length = bn.num_features := by
  rcases bn_forward_some_step rsqrt bn xs p h with ⟨rfl, _⟩ | ⟨rfl, _⟩
  · exact trainStep_fst_width rsqrt bn xs
  · exact evalStep_fst_width rsqrt bn xs

theorem bn_forward_some_of_len (rsqrt : ℚ → ℚ) (bn : BatchNorm1d) (xs : Mat)
    (h : xs.length ≠ 1) : (bn.forward rsqrt xs).isSome = true := by
  by_cases ht : bn.training = true
  · rw [bn_forward_train rsqrt bn xs ht h]
    rfl
  · rw [bn_forward_eval rsqrt bn xs (by simpa using ht)]
    rfl

theorem trainStep_fst_congr (rsqrt : ℚ → ℚ) (a b : BatchNorm1d) (ys : Mat)
    (hnf : a.num_features = b.num_features) (hg : a.gamma = b.gamma)
    (hbe : a.beta = b.beta) (he : a.eps = b.eps) :
    (a.trainStep rsqrt ys).1 = (b.trainStep rsqrt ys).1 := by
  simp [BatchNorm1d.trainStep, hnf, hg, hbe, he]

theorem bn_forward_stable (rsqrt : ℚ → ℚ) (bn : BatchNorm1d) (xs ys : Mat)
    (p : Mat × BatchNorm1d) (h : bn.forward rsqrt xs = some p) :
    (p.2.forward rsqrt ys).map Prod.fst = (bn.forward rsqrt ys).map Prod.fst := by
  have hf := bn_forward_some_fields rsqrt bn xs p h
  by_cases ht : bn.training = true
  · have ht2 : p.2.training = true := by rw [hf.2.2.2.2.2, ht]
    by_cases hy : ys.length = 1
    · unfold BatchNorm1d.forward
      rw [if_pos ht, if_pos ht2, if_pos hy, if_pos hy]
    · rw [bn_forward_train rsqrt bn ys ht hy, bn_forward_train rsqrt p.2 ys ht2 hy]
      simp only [Option.map_some']
      rw [trainStep_fst_congr rsqrt p.2 bn ys hf.1 hf.2.1 hf.2.2.1 hf.2.2.2.2.1]
  · rw [bn_forward_snd_eval rsqrt bn xs p h (by simpa using ht)]

theorem mlp_forward_stable (rsqrt : ℚ → ℚ) (b : MLPBlock) (xs ys : Mat)
    (q : Mat × MLPBlock) (h : b.forward rsqrt xs = some q) :
    (q.2.forward rsqrt ys).map Prod.fst = (b.forward rsqrt ys).map Prod.fst := by
  cases h1 : b.bn1.forward rsqrt (b.lin1.runBatch xs) with
  | none => simp [MLPBlock.forward, h1] at h
  | some p1 =>
    cases h2 : b.bn2.forward rsqrt
        (b.lin2.runBatch (p1.1.map (fun r => r.map relu))) with
    | none => simp [MLPBlock.forward, h1, h2] at h
    | some p2 =>
      have hq : q = (p2.1.map (fun r => r.map relu),
          ⟨b.lin1, p1.2, b.lin2, p2.2⟩) := by
        simp only [MLPBlock.forward, h1, h2, Option.some.injEq] at h
        exact h.symm
      subst hq
      have hc1 := bn_forward_stable rsqrt b.bn1 (b.lin1.runBatch xs)
        (b.lin1.runBatch ys) p1 h1
      cases hy1 : b.bn1.forward rsqrt (b.lin1.runBatch ys) with
      | none =>
          have h0 : p1.2.forward rsqrt (b.lin1.runBatch ys) = none := by
            rw [hy1] at hc1
            simpa using hc1
          simp [MLPBlock.forward, h0, hy1]
      | some q1 =>
          rw [hy1] at hc1
          simp only [Option.map_some'] at hc1
          obtain ⟨q1a, hq1a, hq1fst⟩ := Option.map_eq_some'.mp hc1
          have hc2 := bn_forward_stable rsqrt b.bn2
            (b.lin2.runBatch (p1.1.map (fun r => r.map relu)))
            (b.lin2.runBatch (q1.1.map (fun r => r.map relu))) p2 h2
          cases hy2 : b.bn2.forward rsqrt
              (b.lin2.runBatch (q1.1.map (fun r => r.map relu))) with
          | none =>
              have h0 : p2.2.forward rsqrt
                  (b.lin2.runBatch (q1.1.map (fun r => r.map relu))) = none := by
                rw [hy2] at hc2
                simpa using hc2
              simp [MLPBlock.forward, hq1a, hq1fst, h0, hy1, hy2]
          | some q2 =>
              rw [hy2] at hc2
              simp only [Option.map_some'] at hc2
              obtain ⟨q2a, hq2a, hq2fst⟩ := Option.map_eq_some'.mp hc2
              simp [MLPBlock.forward, hq1a, hq1fst, hq2a, hq2fst, hy1, hy2]

/-- C5 (amended): running either embedder or forward twice on identical
inputs with unchanged learned parameters yields identical outputs - even
for the shared variant, whose second call sees the batch-norm buffers
updated by the first - but the shared variant's training-mode forward does
mutate stored model state: the two BatchNorm1d layers' running statistics.
Everything else (vocabs, embeddings, LSTM, heads, linear layers, and all
batch-norm fields except the running statistics) is untouched. -/
theorem C5_amended (rsqrt : ℚ → ℚ) (m : MTCondLSTM) (e : T3) (cond : Vec)
    (st : Option LSTMState) :
    (runTwice rsqrt m e cond st).map Prod.fst =
        (runTwice rsqrt m e cond st).map Prod.snd ∧
      (MTCondLSTM.forward rsqrt m e cond st).elim True (fun q =>
        q.2.vocabs = m.vocabs ∧ q.2.batch_size = m.batch_size ∧
        q.2.hidden_size = m.hidden_size ∧ q.2.num_layers = m.num_layers ∧
        q.2.prefix_len = m.prefix_len ∧ q.2.embeddings = m.embeddings ∧
        q.2.input_dim = m.input_dim ∧ q.2.lstm = m.lstm ∧
        q.2.act_out = m.act_out ∧ q.2.rt_out = m.rt_out ∧ q.2.res_out = m.res_out ∧
        q.2.mlp.lin1 = m.mlp.lin1 ∧ q.2.mlp.lin2 = m.mlp.lin2 ∧
        q.2.mlp.bn1.num_features = m.mlp.bn1.num_features ∧
        q.2.mlp.bn1.gamma = m.mlp.bn1.gamma ∧ q.2.mlp.bn1.beta = m.mlp.bn1.beta ∧
        q.2.mlp.bn1.momentum = m.mlp.bn1.momentum ∧
        q.2.mlp.bn1.eps = m.mlp.bn1.eps ∧
        q.2.mlp.bn1.training = m.mlp.bn1.training ∧
        q.2.mlp.bn2.num_features = m.mlp.bn2.num_features ∧
        q.2.mlp.bn2.gamma = m.mlp.bn2.gamma ∧ q.2.mlp.bn2.beta = m.mlp.bn2.beta ∧
        q.2.mlp.bn2.momentum = m.mlp.bn2.momentum ∧
        q.2.mlp.bn2.eps = m.mlp.bn2.eps ∧
        q.2.mlp.bn2.training = m.mlp.bn2.training) := by
  constructor
  · cases hE : mEmbed (m.vocabs.map Prod.fst) m.embeddings e with
    | none => simp [runTwice, MTCondLSTM.forward, hE]
    | some emb =>
        cases hM : m.mlp.forward rsqrt (List.zipWith (fun r c => r ++ [c])
            (((m.lstm.run emb st).1).map List.flatten) cond) with
        | none => simp [runTwice, MTCondLSTM.forward, hE, hM]
        | some mo =>
            have hst := mlp_forward_stable rsqrt m.mlp
              (List.zipWith (fun r c => r ++ [c])
                (((m.lstm.run emb st).1).map List.flatten) cond)
              (List.zipWith (fun r c => r ++ [c])
                (((m.lstm.run emb st).1).map List.flatten) cond) mo hM
            rw [hM] at hst
            simp only [Option.map_some'] at hst
            obtain ⟨mo2, hmo2, hfst⟩ := Option.map_eq_some'.mp hst
            simp [runTwice, MTCondLSTM.forward, hE, hM, hmo2, hfst]
  · cases hE : mEmbed (m.vocabs.map Prod.fst) m.embeddings e with
    | none => simp [MTCondLSTM.forward, hE]
    | some emb =>
        cases hM : m.mlp.forward rsqrt (List.zipWith (fun r c => r ++ [c])
            (((m.lstm.run emb st).1).map List.flatten) cond) with
        | none => simp [MTCondLSTM.forward, hE, hM]
        | some mo =>
            cases h1 : m.mlp.bn1.forward rsqrt (m.mlp.lin1.runBatch
                (List.zipWith (fun r c => r ++ [c])
                  (((m.lstm.run emb st).1).map List.flatten) cond)) with
            | none => simp [MLPBlock.forward, h1] at hM
            | some p1 =>
                cases h2 : m.mlp.bn2.forward rsqrt (m.mlp.lin2.runBatch
                    (p1.1.map (fun r => r.map relu))) with
                | none => simp [MLPBlock.forward, h1, h2] at hM
                | some p2 =>
                    have hmo : mo = (p2.1.map (fun r => r.map relu),
                        ⟨m.mlp.lin1, p1.2, m.mlp.lin2, p2.2⟩) := by
                      simp only [MLPBlock.forward, h1, h2, Option.some.injEq] at hM
                      exact hM.symm
                    subst hmo
                    have hf1 := bn_forward_some_fields rsqrt m.mlp.bn1 _ p1 h1
                    have hf2 := bn_forward_some_fields rsqrt m.mlp.bn2 _ p2 h2
                    simp only [MTCondLSTM.forward, hE, hM, Option.elim]
                    simp [hf1.1, hf1.2.1, hf1.2.2.1, hf1.2.2.2.1, hf1.2.2.2.2.1,
                      hf1.2.2.2.2.2, hf2.1, hf2.2.1, hf2.2.2.1, hf2.2.2.2.1,
                      hf2.2.2.2.2.1, hf2.2.2.2.2.2]

theorem getD_range_map (f : Nat → ℚ) (n i : Nat) (d : ℚ) (h : i < n) :
    ((List.range n).map f).getD i d = f i := by
  rw [List.getD_eq_getElem _ _ (by simpa using h)]
  simp

theorem getD_replicate_pos (n i : Nat) (a d : ℚ) (h : i < n) :
    (List.replicate n a).getD i d = a := by
  rw [List.getD_eq_getElem _ _ (by simpa using h)]
  simp

theorem zipWith_replicate_same {α β γ : Type} (f : α → β → γ) (n : Nat) (a : α) (b : β) :
    List.zipWith f (List.replicate n a) (List.replicate n b) =
      List.replicate n (f a b) := by
  induction n with
  | zero => rfl
  | succ k ih => simp [List.replicate_succ, ih]

theorem dot_replicate_zero (i : Nat) (x : Vec) : dot (List.replicate i 0) x = 0 := by
  induction i generalizing x with
  | zero => simp [dot]
  | succ k ih =>
      cases x with
      | nil => simp [dot]
      | cons y ys =>
          simp only [List.replicate_succ, dot, List.zipWith_cons_cons, List.sum_cons]
          have := ih ys
          simp only [dot] at this
          rw [this]
          ring

theorem oneBiasLin_run (i o : Nat) (x : Vec) :
    (oneBiasLin i o).run x = List.replicate o 1 := by
  simp only [oneBiasLin, LinearLayer.run, matVec, List.map_replicate, dot_replicate_zero,
    zipWith_replicate_same]
  norm_num

theorem bn_init_trainStep_rm (rsqrt : ℚ → ℚ) (n : Nat) (hn : 0 < n) :
    (((BatchNorm1d.init n).trainStep rsqrt
        [List.replicate n 1, List.replicate n 1]).2).running_mean.getD 0 0 = 1 / 10 := by
  simp only [BatchNorm1d.trainStep, BatchNorm1d.init]
  rw [getD_range_map _ _ _ _ hn, getD_range_map _ _ _ _ hn,
    getD_replicate_pos _ _ _ _ hn]
  simp only [column, List.map_cons, List.map_nil, getD_replicate_pos _ _ _ _ hn, listMean]
  norm_num

theorem mlp_forward_bn1_proj (rsqrt : ℚ → ℚ) (b : MLPBlock) (xs : Mat)
    (p1 : Mat × BatchNorm1d)
    (h1 : b.bn1.forward rsqrt (b.lin1.runBatch xs) = some p1)
    (h2 : (b.bn2.forward rsqrt
      (b.lin2.runBatch (p1.1.map (fun r => r.map relu)))).isSome = true) :
    (b.forward rsqrt xs).map (fun q => q.2.bn1) = some p1.2 := by
  obtain ⟨p2, hp2⟩ := Option.isSome_iff_exists.mp h2
  simp [MLPBlock.forward, h1, hp2]

/-- C5 counterexample: on a concrete two-window batch, a single
training-mode forward pass of the concretely constructed shared-variant
model changes the first BatchNorm layer's stored running mean from 0 to
1/10 - the forward pass does mutate stored model state. -/
theorem C5_counterexample :
    cexNewRM = some (1 / 10) ∧ cexModel.mlp.bn1.running_mean.getD 0 0 = 0 := by
  constructor
  · have hEmb : mEmbed (cexModel.vocabs.map Prod.fst) cexModel.embeddings twoWindows =
        some [List.replicate 5 [0, 0, 0, 0], List.replicate 5 [0, 0, 0, 0]] := by
      decide
    have hrun : cexModel.lstm.run = fun inp _ => (inp, ⟨⟨[], true⟩, ⟨[], true⟩⟩) := rfl
    have hlin1 : cexModel.mlp.lin1 = oneBiasLin (1 + 256 * 5) 512 := rfl
    have hbn1 : cexModel.mlp.bn1 = BatchNorm1d.init 512 := rfl
    have hcond : List.zipWith (fun r c => r ++ [c])
        [(List.replicate 5 ([0, 0, 0, 0] : Vec)).flatten,
          (List.replicate 5 ([0, 0, 0, 0] : Vec)).flatten]
        ([0, 0] : Vec) = [List.replicate 21 0, List.replicate 21 0] := by
      decide
    have hh1 : cexModel.mlp.lin1.runBatch
        [List.replicate 21 0, List.replicate 21 0] =
        [List.replicate 512 1, List.replicate 512 1] := by
      rw [hlin1]
      simp only [LinearLayer.runBatch, List.map_cons, List.map_nil, oneBiasLin_run]
    have hp1 : cexModel.mlp.bn1.forward oneRsqrt (cexModel.mlp.lin1.runBatch
        [List.replicate 21 0, List.replicate 21 0]) =
        some ((BatchNorm1d.init 512).trainStep oneRsqrt
          [List.replicate 512 1, List.replicate 512 1]) := by
      rw [hh1, hbn1]
      exact bn_forward_train oneRsqrt (BatchNorm1d.init 512) _ rfl (by decide)
    have hlen1 : ((BatchNorm1d.init 512).trainStep oneRsqrt
        [List.replicate 512 1, List.replicate 512 1]).1.length = 2 :=
      trainStep_fst_length oneRsqrt (BatchNorm1d.init 512) _
    have h2 : (cexModel.mlp.bn2.forward oneRsqrt
        (cexModel.mlp.lin2.runBatch
          (((BatchNorm1d.init 512).trainStep oneRsqrt
            [List.replicate 512 1, List.replicate 512 1]).1.map
              (fun r => r.map relu)))).isSome = true := by
      refine bn_forward_some_of_len oneRsqrt _ _ ?_
      simp only [LinearLayer.runBatch, List.length_map, hlen1]
      omega
    have hproj := mlp_forward_bn1_proj oneRsqrt cexModel.mlp
      [List.replicate 21 0, List.replicate 21 0] _ hp1 h2
    obtain ⟨mo, hmo, hmobn1⟩ := Option.map_eq_some'.mp hproj
    simp only [cexNewRM, MTCondLSTM.forward, hEmb, hrun, List.map_cons,
      List.map_nil, hcond, hmo, Option.map_some']
    rw [show mo.2.bn1 = ((BatchNorm1d.init 512).trainStep oneRsqrt
        [List.replicate 512 1, List.replicate 512 1]).2 from hmobn1]
    rw [bn_init_trainStep_rm oneRsqrt 512 (by norm_num)]
  · decide

theorem mlp_forward_some_widths (rsqrt : ℚ → ℚ) (b : MLPBlock) (xs : Mat)
    (q : Mat × MLPBlock) (h : b.forward rsqrt xs = some q) :
    q.1.length = xs.length ∧ ∀ r ∈ q.1, r.length = b.bn2.num_features := by
  cases h1 : b.bn1.forward rsqrt (b.lin1.runBatch xs) with
  | none => simp [MLPBlock.forward, h1] at h
  | some p1 =>
    cases h2 : b.bn2.forward rsqrt
        (b.lin2.runBatch (p1.1.map (fun r => r.map relu))) with
    | none => simp [MLPBlock.forward, h1, h2] at h
    | some p2 =>
      have hq : q = (p2.1.map (fun r => r.map relu),
          ⟨b.lin1, p1.2, b.lin2, p2.2⟩) := by
        simp only [MLPBlock.forward, h1, h2, Option.some.injEq] at h
        exact h.symm
      subst hq
      constructor
      · have l2 := bn_forward_some_fst_length rsqrt b.bn2 _ p2 h2
        have l1 := bn_forward_some_fst_length rsqrt b.bn1 _ p1 h1
        simp only [List.length_map, l2, LinearLayer.runBatch, l1]
      · intro r hr
        simp only [List.mem_map] at hr
        obtain ⟨r0, hr0, rfl⟩ := hr
        simpa using bn_forward_some_fst_width rsqrt b.bn2 _ p2 h2 r0 hr0

theorem mlp_forward_eval (rsqrt : ℚ → ℚ) (b : MLPBlock) (xs : Mat)
    (h1 : b.bn1.training = false) (h2 : b.bn2.training = false) :
    b.forward rsqrt xs = some
      (((b.bn2.evalStep rsqrt (b.lin2.runBatch
          ((b.bn1.evalStep rsqrt (b.lin1.runBatch xs)).1.map
            (fun r => r.map relu)))).1.map (fun r => r.map relu)), b) := by
  simp only [MLPBlock.forward, bn_forward_eval rsqrt b.bn1 _ h1,
    bn_forward_eval rsqrt b.bn2 _ h2]
  rfl

theorem lin_run_length (l : LinearLayer) (o : Nat) (hw : l.weight.length = o)
    (hb : l.bias.length = o) (x : Vec) : (l.run x).length = o := by
  simp [LinearLayer.run, matVec, hw, hb]

theorem flatten_length_of_shape (s : Mat) (L H : Nat) (hL : s.length = L)
    (hH : ∀ r ∈ s, r.length = H) : s.flatten.length = L * H := by
  rw [List.length_flatten]
  have hrep : s.map List.length = List.replicate L H := by
    rw [List.eq_replicate_iff]
    refine ⟨by simpa using hL, ?_⟩
    intro b hb
    rw [List.mem_map] at hb
    obtain ⟨r, hr, rfl⟩ := hb
    exact hH r hr
  rw [hrep, List.sum_replicate, smul_eq_mul]

theorem mlp_forward_eval_ex (rsqrt : ℚ → ℚ) (b : MLPBlock) (xs : Mat)
    (h1 : b.bn1.training = false) (h2 : b.bn2.training = false) :
    ∃ out, b.forward rsqrt xs = some (out, b) ∧ out.length = xs.length ∧
      ∀ r ∈ out, r.length = b.bn2.num_features := by
  have he := mlp_forward_eval rsqrt b xs h1 h2
  have hw := mlp_forward_some_widths rsqrt b xs _ he
  exact ⟨_, he, hw.1, hw.2⟩

/-- C4 counterexample: the claim's single-window scenario fails on the
model as constructed: a freshly built shared-variant model is in training
mode, and on a batch-size-1 window its `nn.BatchNorm1d` raises torch's
"Expected more than 1 value per channel when training" error, so the
forward pass produces no `(1, 4)` activity logits at all. -/
theorem C4_counterexample :
    m4W.mlp.bn1.training = true ∧ oneWindow.length = 1 ∧
    MTCondLSTM.forward oneRsqrt m4W oneWindow [0] none = none :=
  ⟨rfl, rfl, rfl⟩

/-- C4 (amended): in the shared variant's forward pass the encoder output
is flattened to width `hidden_size * prefix_len`, concatenated with the
scalar condition (width 1), passed through the two-layer batch-norm/ReLU
feed-forward block producing a 256-wide representation read by three
independent linear heads; on a single window with an activity vocabulary
of size 4, with the model's batch-norm layers in eval mode (after
`model.eval()`; in training mode the batch of size 1 makes BatchNorm
raise instead), the activity logits have shape `(1, 4)` and the
remaining-time output has shape `(1, 1)`, returned in the order
`(activity, resource, remaining-time, new_state)`. -/
theorem C4_eval_forward_shapes (p : InitParams) (v : Vocabs) (bs : Nat)
    (m : MTCondLSTM) (a : VocabEntry) (rsqrt : ℚ → ℚ) (e : T3) (cond : Vec)
    (st : Option LSTMState)
    (hLin : LinInitWF p.linInit) (hEmbI : EmbInitWF p.embInit)
    (hMk : (MTCondLSTM.make p v bs).1 = some m)
    (hnd : (v.map Prod.fst).Nodup) (hne : v ≠ []) (hn3 : v.length ≤ 3)
    (hA : dictLookup "activity" v = some a) (hA4 : a.size = 4)
    (hLSTM : LSTMRunShapeOK m.evalMode.lstm (embedOutWidth v) 256)
    (hB : e.length = 1) (hL : ∀ s ∈ e, s.length = 5 ∧ ∀ r ∈ s, r.length = 3)
    (hcodes : codesOK v e = true) (hCond : cond.length = 1) :
    ∃ emb out,
      mEmbed (m.evalMode.vocabs.map Prod.fst) m.evalMode.embeddings e = some emb ∧
      (emb.length = 1 ∧ ∀ s ∈ emb, s.length = 5 ∧ ∀ r ∈ s, r.length = embedOutWidth v) ∧
      (((m.evalMode.lstm.run emb st).1).map List.flatten).map List.length =
        [m.evalMode.hidden_size * m.evalMode.prefix_len] ∧
      (List.zipWith (fun r c => r ++ [c])
          (((m.evalMode.lstm.run emb st).1).map List.flatten) cond).map List.length =
        [1 + m.evalMode.hidden_size * m.evalMode.prefix_len] ∧
      m.evalMode.mlp.forward rsqrt (List.zipWith (fun r c => r ++ [c])
          (((m.evalMode.lstm.run emb st).1).map List.flatten) cond) =
        some (out, m.evalMode.mlp) ∧
      out.map List.length = [256] ∧
      MTCondLSTM.forward rsqrt m.evalMode e cond st =
        some ((m.evalMode.act_out.runBatch out, m.evalMode.res_out.runBatch out,
               m.evalMode.rt_out.runBatch out,
               detachState (m.evalMode.lstm.run emb st).2), m.evalMode) ∧
      (m.evalMode.act_out.runBatch out).map List.length = [4] ∧
      (m.evalMode.rt_out.runBatch out).map List.length = [1] := by
  have hact2 : dictLookup "activity" (set_embeddings p.embInit v).2 =
      some (updEntry p.embInit a) := by
    rw [dictLookup_updated, hA]; rfl
  simp only [MTCondLSTM.make, hact2] at hMk
  have hMk2 := Option.some.inj hMk
  have hvoc : m.evalMode.vocabs = (set_embeddings p.embInit v).2 := by rw [← hMk2]; rfl
  have hembs : m.evalMode.embeddings = (set_embeddings p.embInit v).1 := by rw [← hMk2]; rfl
  have hhid : m.evalMode.hidden_size = 256 := by rw [← hMk2]; rfl
  have hpre : m.evalMode.prefix_len = 5 := by rw [← hMk2]; rfl
  have hactout : m.evalMode.act_out = p.linInit 256 (updEntry p.embInit a).size := by
    rw [← hMk2]; rfl
  have hrtout : m.evalMode.rt_out = p.linInit 256 1 := by rw [← hMk2]; rfl
  have hbn1 : m.evalMode.mlp.bn1.training = false := by rw [← hMk2]; rfl
  have hbn2 : m.evalMode.mlp.bn2.training = false := by rw [← hMk2]; rfl
  have hbn2n : m.evalMode.mlp.bn2.num_features = 256 := by rw [← hMk2]; rfl
  have hrows : ∀ s ∈ e, ∀ ev ∈ s, v.length ≤ ev.length := by
    intro s hs ev hev
    rw [(hL s hs).2 ev hev]
    exact hn3
  have hdict : ∀ q ∈ v, dictLookup q.1 (set_embeddings p.embInit v).1 =
      some (layerOf p.embInit q.2) := by
    intro q hq
    rw [set_embeddings_fst, dictLookup_map (layerOf p.embInit) q.1 v,
      dictLookup_self v hnd q hq]
    rfl
  have hembed : mEmbed (m.evalMode.vocabs.map Prod.fst) m.evalMode.embeddings e =
      some (e.map (fun s => s.map (fun ev =>
        specCatSeq p.embInit v 0 ev ++ ev.drop v.length))) := by
    rw [hvoc, hembs, updated_names]
    exact mEmbed_spec p.embInit v e hEmbI hnd hne hrows hcodes
  have hshape : (e.map (fun s => s.map (fun ev =>
        specCatSeq p.embInit v 0 ev ++ ev.drop v.length))).length = 1 ∧
      ∀ s ∈ e.map (fun s => s.map (fun ev =>
        specCatSeq p.embInit v 0 ev ++ ev.drop v.length)),
        s.length = 5 ∧ ∀ r ∈ s, r.length = embedOutWidth v := by
    refine ⟨by simpa using hB, ?_⟩
    intro s hs
    rw [List.mem_map] at hs
    obtain ⟨s0, hs0, rfl⟩ := hs
    refine ⟨by simpa using (hL s0 hs0).1, ?_⟩
    intro r hr
    rw [List.mem_map] at hr
    obtain ⟨ev, hev, rfl⟩ := hr
    have hspec := (mEmbedRow_spec p.embInit hEmbI (set_embeddings p.embInit v).1 v hne ev
      hdict (hrows s0 hs0 ev hev) (codesOK_spec v e hcodes s0 hs0 ev hev)).2
    rw [hspec, (hL s0 hs0).2 ev hev, embedOutWidth]
  refine ⟨e.map (fun s => s.map (fun ev =>
    specCatSeq p.embInit v 0 ev ++ ev.drop v.length)), ?_⟩
  have hlstm := hLSTM (e.map (fun s => s.map (fun ev =>
    specCatSeq p.embInit v 0 ev ++ ev.drop v.length))) st 1 5 hshape.1 hshape.2
  obtain ⟨s1, hs1⟩ := List.length_eq_one.mp hlstm.1
  have hs1shape := hlstm.2 s1 (by rw [hs1]; exact List.mem_cons_self s1 [])
  have hflat : s1.flatten.length = 5 * 256 :=
    flatten_length_of_shape s1 5 256 hs1shape.1 hs1shape.2
  obtain ⟨c0, hc0⟩ := List.length_eq_one.mp hCond
  obtain ⟨out0, hmlp0, hlen0, hwid0⟩ :=
    mlp_forward_eval_ex rsqrt m.evalMode.mlp [s1.flatten ++ [c0]] hbn1 hbn2
  obtain ⟨o0, ho0⟩ := List.length_eq_one.mp (by simpa using hlen0)
  subst ho0
  have ho0len : o0.length = 256 := by
    have := hwid0 o0 (List.mem_cons_self o0 [])
    rw [hbn2n] at this
    exact this
  refine ⟨[o0], hembed, hshape, ?_, ?_, ?_, ?_, ?_, ?_, ?_⟩
  · rw [hs1, hhid, hpre]
    simp only [List.map_cons, List.map_nil, hflat]
  · rw [hs1, hc0, hhid, hpre]
    simp only [List.zipWith_cons_cons, List.zipWith_nil_right, List.map_cons,
      List.map_nil, List.length_append, hflat]
    norm_num
  · rw [hs1, hc0]
    simp only [List.map_cons, List.map_nil, List.zipWith_cons_cons,
      List.zipWith_nil_right]
    exact hmlp0
  · simp [ho0len]
  · rw [hc0]
    simp only [MTCondLSTM.forward, hembed, hs1, List.map_cons, List.map_nil,
      List.zipWith_cons_cons, List.zipWith_nil_right, hmlp0]
  · rw [hactout]
    simp only [LinearLayer.runBatch, List.map_cons, List.map_nil]
    have hw := (hLin 256 (updEntry p.embInit a).size).1
    have hb := (hLin 256 (updEntry p.embInit a).size).2.2
    have hsz : (updEntry p.embInit a).size = 4 := by simp [updEntry, hA4]
    rw [hsz] at hw hb ⊢
    simp [lin_run_length _ 4 hw hb]
  · rw [hrtout]
    simp only [LinearLayer.runBatch, List.map_cons, List.map_nil]
    have hw := (hLin 256 1).1
    have hb := (hLin 256 1).2.2
    simp [lin_run_length _ 1 hw hb]

theorem C4_witness :
    LinInitWF zeroInitP.linInit ∧ EmbInitWF zeroInitP.embInit ∧
    (MTCondLSTM.make zeroInitP vocA 16).1 = some m4W ∧
    (vocA.map Prod.fst).Nodup ∧ vocA ≠ [] ∧ vocA.length ≤ 3 ∧
    dictLookup "activity" vocA = some ⟨4, 2, none⟩ ∧
    (⟨4, 2, none⟩ : VocabEntry).size = 4 ∧
    LSTMRunShapeOK m4W.evalMode.lstm (embedOutWidth vocA) 256 ∧
    oneWindow.length = 1 ∧
    (∀ s ∈ oneWindow, s.length = 5 ∧ ∀ r ∈ s, r.length = 3) ∧
    codesOK vocA oneWindow = true ∧ ([0] : Vec).length = 1 ∧
    (∃ emb out,
      mEmbed (m4W.evalMode.vocabs.map Prod.fst) m4W.evalMode.embeddings oneWindow =
        some emb ∧
      (emb.length = 1 ∧ ∀ s ∈ emb, s.length = 5 ∧
        ∀ r ∈ s, r.length = embedOutWidth vocA) ∧
      (((m4W.evalMode.lstm.run emb none).1).map List.flatten).map List.length =
        [m4W.evalMode.hidden_size * m4W.evalMode.prefix_len] ∧
      (List.zipWith (fun r c => r ++ [c])
          (((m4W.evalMode.lstm.run emb none).1).map List.flatten) [0]).map List.length =
        [1 + m4W.evalMode.hidden_size * m4W.evalMode.prefix_len] ∧
      m4W.evalMode.mlp.forward oneRsqrt (List.zipWith (fun r c => r ++ [c])
          (((m4W.evalMode.lstm.run emb none).1).map List.flatten) [0]) =
        some (out, m4W.evalMode.mlp) ∧
      out.map List.length = [256] ∧
      MTCondLSTM.forward oneRsqrt m4W.evalMode oneWindow [0] none =
        some ((m4W.evalMode.act_out.runBatch out, m4W.evalMode.res_out.runBatch out,
               m4W.evalMode.rt_out.runBatch out,
               detachState (m4W.evalMode.lstm.run emb none).2), m4W.evalMode) ∧
      (m4W.evalMode.act_out.runBatch out).map List.length = [4] ∧
      (m4W.evalMode.rt_out.runBatch out).map List.length = [1]) := by
  refine ⟨zeroLin_wf, zeroEmb_wf, rfl, by decide, by decide, by decide, rfl, rfl,
    zeroLSTM_shape _ 256 2 _, rfl, by decide, by decide, rfl, ?_⟩
  exact C4_eval_forward_shapes zeroInitP vocA 16 m4W ⟨4, 2, none⟩ oneRsqrt oneWindow
    [0] none zeroLin_wf zeroEmb_wf rfl (by decide) (by decide) (by decide) rfl rfl
    (zeroLSTM_shape _ 256 2 _) rfl (by decide) (by decide) rfl
